import Mathlib

/-!
# Verification of trafilatura's HTML-processing core

Shallow embedding of `src/trafilatura/htmlprocessing.py` and
`src/trafilatura/utils.py`.  lxml element trees are modelled by the rose
tree `Elem` below (tag, attribute list, optional text, children, optional
tail).  Python strings are Lean `String`s (`len` is the number of code
points, which matches `String.length`), byte strings are `List Nat`,
floating-point ratio comparisons are carried out exactly by
cross-multiplication (`x > 0.8 * y` becomes `5 * x > 4 * y`,
`x > y / 7` becomes `7 * x > y`; 0.8 is 4/5 and the float comparison
agrees with the exact one at every integer in scope, since no product
here approaches 2^53), and external collaborators (the lxml parser, the `re`
substitutions of the two repair regexes, charset_normalizer, the
compression codecs, courlan's URL helpers) are taken as function
parameters, exactly as the spec lists them as external dependencies.
-/

namespace Trafilatura

/-- An lxml element: tag name, attributes (association list with the
dict's insertion order), optional text, ordered children, and optional
tail text (the text between this node's closing boundary and the next
sibling, owned by the parent's text stream). -/
inductive Elem : Type where
  | mk (tag : String) (attrib : List (String × String)) (text : Option String)
       (children : List Elem) (tail : Option String)

/-- Tag accessor. -/
def Elem.tag : Elem → String
  | .mk t _ _ _ _ => t

/-- Attribute accessor. -/
def Elem.attrib : Elem → List (String × String)
  | .mk _ a _ _ _ => a

/-- Text accessor. -/
def Elem.text : Elem → Option String
  | .mk _ _ x _ _ => x

/-- Children accessor. -/
def Elem.children : Elem → List Elem
  | .mk _ _ _ cs _ => cs

/-- Tail accessor. -/
def Elem.tail : Elem → Option String
  | .mk _ _ _ _ tl => tl

/-- Replace the tail of an element. -/
def Elem.withTail (tl : Option String) : Elem → Elem
  | .mk t a x cs _ => .mk t a x cs tl

/-- `elem.get(key)` on the attribute dict. -/
def attribGet (attrib : List (String × String)) (key : String) : Option String :=
  match attrib.find? (fun p => p.1 = key) with
  | some p => some p.2
  | none => none

/-- `elem.set(key, value)`: overwrite an existing key, else append. -/
def attribSet (attrib : List (String × String)) (key value : String) :
    List (String × String) :=
  if (attrib.find? (fun p => p.1 = key)).isSome then
    attrib.map (fun p => if p.1 = key then (key, value) else p)
  else attrib ++ [(key, value)]

/-- `attrib.pop(key)` (ignoring the returned value). -/
def attribRemove (attrib : List (String × String)) (key : String) :
    List (String × String) :=
  attrib.filter (fun p => p.1 ≠ key)

/-- Python `str.isspace` on a single character (whitespace plus the
Unicode space separators and the information separators). -/
def pyIsSpaceChar (c : Char) : Bool :=
  c.toNat ∈ [0x09, 0x0a, 0x0b, 0x0c, 0x0d, 0x1c, 0x1d, 0x1e, 0x1f, 0x20,
    0x85, 0xa0, 0x1680,
    0x2000, 0x2001, 0x2002, 0x2003, 0x2004, 0x2005, 0x2006, 0x2007,
    0x2008, 0x2009, 0x200a, 0x2028, 0x2029, 0x202f, 0x205f, 0x3000]

/-- Helper for `pySplit`: split a character list on whitespace runs,
dropping empty pieces; `acc` holds the current word reversed. -/
def pySplitGo (acc : List Char) : List Char → List (List Char)
  | [] => if acc.isEmpty then [] else [acc.reverse]
  | c :: rest =>
    if pyIsSpaceChar c then
      if acc.isEmpty then pySplitGo [] rest
      else acc.reverse :: pySplitGo [] rest
    else pySplitGo (c :: acc) rest

/-- Python `str.split()` with no argument: split on whitespace runs and
drop empty pieces. -/
def pySplit (s : String) : List String :=
  (pySplitGo [] s.data).map (fun l => String.mk l)

/-- `utils.trim`: `' '.join(string.split()).strip()`.  Python `split()`
drops empty pieces, so the trailing `.strip()` is a no-op (the join has
no edge whitespace). -/
def trim (string : String) : String :=
  " ".intercalate (pySplit string)

/-- Helper for `strContains`: does `pat` occur as a contiguous segment? -/
def containsSeg (pat : List Char) : List Char → Bool
  | [] => pat.isEmpty
  | c :: rest => pat.isPrefixOf (c :: rest) || containsSeg pat rest

/-- Substring test, `pat in s` in Python. -/
def strContains (s pat : String) : Bool :=
  containsSeg pat.data s.data

mutual
/-- lxml `element.text_content()`: the element's own text followed, for
each child in order, by the child's text content and the child's tail.
The element's own tail is not included. -/
def textContent : Elem → String
  | .mk _ _ text children _ => text.getD "" ++ textContentList children
/-- Helper for `textContent` over a child list. -/
def textContentList : List Elem → String
  | [] => ""
  | c :: rest => textContent c ++ (Elem.tail c).getD "" ++ textContentList rest
end

mutual
/-- lxml `element.itertext()`: the non-`None` text nodes of the subtree in
document order (own text, then each child's itertext followed by its
tail).  The element's own tail is not yielded. -/
def itertext : Elem → List String
  | .mk _ _ text children _ => text.toList ++ itertextList children
/-- Helper for `itertext` over a child list. -/
def itertextList : List Elem → List String
  | [] => []
  | c :: rest => itertext c ++ (Elem.tail c).toList ++ itertextList rest
end

mutual
/-- `element.findall('.//ref')`: every descendant (document order, the
element itself excluded) whose tag is `ref`. -/
def findallRef : Elem → List Elem
  | .mk _ _ _ children _ => findallRefList children
/-- Helper for `findallRef` over a child list. -/
def findallRefList : List Elem → List Elem
  | [] => []
  | c :: rest =>
      (if Elem.tag c = "ref" then [c] else []) ++ findallRef c ++ findallRefList rest
end

/-- `'preserve-content' in elem.attrib`. -/
def isMarked (e : Elem) : Bool :=
  (attribGet e.attrib "preserve-content").isSome

/-- The extraction configuration (`options`) fields read by the embedded
functions.  `preserve` patterns are regexes in the source; the external
`re.search` is modelled by giving each pattern as a text predicate. -/
structure ExtractorOptions : Type where
  tables : Bool
  images : Bool
  links : Bool
  formatting : Bool
  preserve : List (String → Bool)
  focus : String

/-- `collect_link_info(links_xpath, favor_precision)`: total trimmed link
text length, number of non-blank links, number of "short" links, and the
list of non-blank trimmed link texts. -/
def collect_link_info (links_xpath : List Elem) (favor_precision : Bool) :
    Nat × Nat × Nat × List String :=
  let threshold : Nat := if favor_precision then 50 else 10
  let mylist :=
    (links_xpath.map (fun subelem => trim (textContent subelem))).filter
      (fun s => s ≠ "")
  let shortelems := (mylist.filter (fun text => text.length < threshold)).length
  let lengths := (mylist.map String.length).sum
  (lengths, mylist.length, shortelems, mylist)

/-- `link_density_test(element, text, favor_precision)`.  `has_next`
stands for `element.getnext() is not None`, the sibling context the
source reads from the tree.  Every branch of the source assigns the
threshold 0.8 = 4/5; the two float comparisons
`linklen > threshold * elemlen` and `shortelems / elemnum > 0.8` are
carried out exactly as `5 * linklen > 4 * elemlen` and
`5 * shortelems > 4 * elemnum`. -/
def link_density_test (element : Elem) (has_next : Bool) (text : String)
    (favor_precision : Bool) : Bool × List String :=
  let links_xpath := findallRef element
  if !links_xpath.isEmpty then
    let limitlen : Nat :=
      if element.tag = "p" then
        if ¬ favor_precision then
          if ¬ has_next then 60 else 30
        else 200
      else
        if ¬ has_next then 300 else 100
    let elemlen := text.length
    if elemlen < limitlen then
      let info := collect_link_info links_xpath favor_precision
      let linklen := info.1
      let elemnum := info.2.1
      let shortelems := info.2.2.1
      let mylist := info.2.2.2
      if elemnum = 0 then (true, mylist)
      else if 5 * linklen > 4 * elemlen ∨
          (elemnum > 1 ∧ 5 * shortelems > 4 * elemnum) then (true, mylist)
      else (false, mylist)
    else (false, [])
  else (false, [])

/-- The backtracking trigger of `delete_by_link_density`
(`elif backtracking and templist: if 0 < len(elemtext) < threshold and
len(elem) >= 3: deletions.extend(elem)`), evaluated for a candidate
element that was not itself flagged.  Preserve-marked candidates are
skipped (`continue`) before this branch. -/
def dbldBtParent (tagname : String) (backtracking favor_precision : Bool)
    (e : Elem) (has_next : Bool) : Bool :=
  let elemtext := trim (textContent e)
  let tested := link_density_test e has_next elemtext favor_precision
  backtracking && Elem.tag e == tagname
    && (attribGet e.attrib "preserve-content").isNone
    && !tested.1 && !tested.2.isEmpty
    && decide (0 < elemtext.length)
    && decide (elemtext.length < (if favor_precision then 200 else 100))
    && decide ((Elem.children e).length ≥ 3)

/-- The direct-deletion test of `delete_by_link_density`: candidate tag,
not preserve-marked (`continue`), flagged by `link_density_test`. -/
def dbldDirect (tagname : String) (favor_precision : Bool) (c : Elem)
    (has_next : Bool) : Bool :=
  Elem.tag c == tagname && (attribGet c.attrib "preserve-content").isNone
    && (link_density_test c has_next (trim (textContent c)) favor_precision).1

mutual
/-- `delete_by_link_density` on one kept element: compute whether the
element triggers the backtracking branch (`deletions.extend(elem)`
schedules all its children) and rebuild its child list. -/
def dbld_elem (tagname : String) (backtracking favor_precision : Bool)
    (e : Elem) (has_next : Bool) : Elem :=
  match e with
  | .mk tag attrib text children tail =>
    .mk tag attrib text
      (dbld_list tagname backtracking favor_precision
        (dbldBtParent tagname backtracking favor_precision
          (.mk tag attrib text children tail) has_next)
        children) tail
/-- `delete_by_link_density` over a child list.  A child is removed (its
tail silently dropped, since the source uses `parent.remove(elem)`) when
it tested link-dense, or when its parent triggered backtracking. -/
def dbld_list (tagname : String) (backtracking favor_precision : Bool)
    (bt_parent : Bool) : List Elem → List Elem
  | [] => []
  | c :: rest =>
    if dbldDirect tagname favor_precision c (!rest.isEmpty) || bt_parent then
      dbld_list tagname backtracking favor_precision bt_parent rest
    else
      dbld_elem tagname backtracking favor_precision c (!rest.isEmpty) ::
        dbld_list tagname backtracking favor_precision bt_parent rest
end

/-- `delete_by_link_density(subtree, tagname, backtracking,
favor_precision)`.  The candidates are found by `subtree.iter(tagname)`;
tests run against the unmodified tree (removal happens after the scan) and
the subtree root itself is never removed (`getparent() is None`). -/
def delete_by_link_density (subtree : Elem) (tagname : String)
    (backtracking favor_precision : Bool) : Elem :=
  dbld_elem tagname backtracking favor_precision subtree false

/-! ## Supporting lemmas -/

/-- Appending the empty string is the identity. -/
theorem str_append_empty (s : String) : s ++ "" = s := by
  cases s with
  | mk data => show String.mk (data ++ []) = String.mk data
               rw [List.append_nil]

/-- A scenario link: `<ref>` with the given text. -/
def c5ref (s : String) : Elem := .mk "ref" [] (some s) [] none

/-- A scenario paragraph whose children are links with the given texts. -/
def c5p (L : List String) : Elem := .mk "p" [] none (L.map c5ref) none

/-- The concrete C5 document: the five-short-link paragraph followed by a
sibling paragraph. -/
def c5tree : Elem :=
  .mk "body" [] none
    [c5p ["abcde", "fghij", "klmno", "pqrst", "uvwxy"],
     .mk "p" [] (some "This is a normal paragraph following") [] none] none

/-- `findallRef` on a paragraph of links returns exactly the links. -/
theorem findallRef_c5p (L : List String) : findallRef (c5p L) = L.map c5ref := by
  show findallRefList (L.map c5ref) = L.map c5ref
  induction L with
  | nil => rfl
  | cons s rest ih =>
      show (if Elem.tag (c5ref s) = "ref" then [c5ref s] else []) ++
          findallRef (c5ref s) ++ findallRefList (rest.map c5ref) =
          c5ref s :: rest.map c5ref
      rw [ih]
      rfl

/-- Trimmed text of a scenario link. -/
theorem trim_textContent_c5ref (s : String) :
    trim (textContent (c5ref s)) = trim s := by
  show trim (s ++ "") = trim s
  rw [str_append_empty]

/-! ## `prune_unwanted_nodes` -/

/-- The tail merge of `prune_unwanted_nodes`:
`prev.tail = (prev.tail or "") + " " + subtree.tail`. -/
def pruneMerge (x : Option String) (t : String) : Option String :=
  some (x.getD "" ++ " " ++ t)

mutual
/-- One selector pass of `prune_unwanted_nodes` over one element: rebuild
its child list, with deleted children's tails merged into the previous
sibling's tail, or into this element's own tail when there is no previous
sibling (the source's `prev = subtree.getparent()` followed by
`prev.tail = ...`). -/
def pruneSelElem (sel : Elem → Bool) : Elem → Elem
  | .mk tag attrib text children tail =>
    let st := pruneSelList sel (tail, []) children
    .mk tag attrib text st.2.reverse st.1
/-- One selector pass over a child list, in document order.  The state is
the parent's tail so far and the processed children in reverse.  For a
selected child the tail is merged first (unconditionally), then the child
is removed unless it carries `preserve-content`. -/
def pruneSelList (sel : Elem → Bool) (st : Option String × List Elem) :
    List Elem → Option String × List Elem
  | [] => st
  | c :: rest =>
    if sel c then
      let st1 : Option String × List Elem :=
        match c.tail with
        | none => st
        | some t =>
          match st with
          | (ptail, []) => (pruneMerge ptail t, [])
          | (ptail, prev :: acc) =>
              (ptail, prev.withTail (pruneMerge prev.tail t) :: acc)
      if isMarked c then
        pruneSelList sel (st1.1, pruneSelElem sel c :: st1.2) rest
      else pruneSelList sel st1 rest
    else pruneSelList sel (st.1, pruneSelElem sel c :: st.2) rest
end

/-- `prune_unwanted_nodes(tree, nodelist, with_backup)`.  Each XPath
expression of `nodelist` is modelled as an element predicate applied to
every non-root node of the tree, matches processed in document order
(the root itself is never a removal target: the source would call
`.getparent().remove` on it).  The float guard `new_len > old_len/7` is
the exact `7 * new_len > old_len`. -/
def prune_unwanted_nodes (tree : Elem) (nodelist : List (Elem → Bool))
    (with_backup : Bool) : Elem :=
  let old_len := (textContent tree).length
  let backup := tree
  let pruned := nodelist.foldl (fun t sel => pruneSelElem sel t) tree
  if with_backup then
    if 7 * (textContent pruned).length > old_len then pruned else backup
  else pruned

/-! ## Claim C5 -/

/-- C5: a `p` element with a following sibling, precision off, whose
trimmed text is shorter than the 30-character limit and which contains
more than one non-blank `ref` link with over 80% of the link texts
shorter than 10 characters, is flagged link-dense by
`link_density_test`; and on the concrete five-links-of-five-characters
document, `delete_by_link_density` removes the paragraph. -/
theorem c5_short_link_paragraph_flagged_and_removed (L : List String)
    (h1 : 1 < L.length)
    (h2 : ∀ s ∈ L, trim s ≠ "")
    (h3 : 5 * ((L.map trim).filter (fun t => t.length < 10)).length > 4 * L.length)
    (h4 : (trim (textContent (c5p L))).length < 30) :
    (link_density_test (c5p L) true (trim (textContent (c5p L))) false).1 = true
    ∧ delete_by_link_density c5tree "p" false false =
      Elem.mk "body" [] none
        [Elem.mk "p" [] (some "This is a normal paragraph following") [] none]
        none := by
  constructor
  · have hmap : ((L.map c5ref).map (fun r => trim (textContent r))) = L.map trim := by
      rw [List.map_map]
      exact List.map_congr_left (fun s _ => trim_textContent_c5ref s)
    have hfilter : (L.map trim).filter (fun s => s ≠ "") = L.map trim := by
      rw [List.filter_eq_self]
      intro a ha
      rcases List.mem_map.mp ha with ⟨s, hs, rfl⟩
      simpa using h2 s hs
    have hne : (L.map c5ref).isEmpty = false := by
      cases L with
      | nil => exact absurd h1 (by simp)
      | cons a as => rfl
    have hlen : (L.map trim).length = L.length := List.length_map _ _
    unfold link_density_test collect_link_info
    rw [findallRef_c5p]
    simp only [hne, Bool.not_false, if_true, hmap, hfilter]
    have htag : (c5p L).tag = "p" := rfl
    simp only [htag]
    norm_num
    rw [if_pos h4]
    have hLne : ¬(L = []) := by
      intro h
      rw [h] at h1
      simp at h1
    rw [if_neg hLne, if_pos (Or.inr ⟨h1, by simpa using h3⟩)]
  · rfl

/-- Witness for C5 at five links of five characters each. -/
theorem c5_witness :
    (1 < (["abcde", "fghij", "klmno", "pqrst", "uvwxy"] : List String).length)
    ∧ (link_density_test (c5p ["abcde", "fghij", "klmno", "pqrst", "uvwxy"])
        true
        (trim (textContent (c5p ["abcde", "fghij", "klmno", "pqrst", "uvwxy"])))
        false).1 = true :=
  ⟨by decide,
   (c5_short_link_paragraph_flagged_and_removed
      ["abcde", "fghij", "klmno", "pqrst", "uvwxy"]
      (by decide) (by decide) (by decide) (by decide)).1⟩

/-! ## Claim C9 -/

/-- C9: an element with at least one `ref` descendant, all of whose
`ref` descendants have blank trimmed text, and whose trimmed text is
below the applicable length limit, is flagged link-dense by
`link_density_test` (with an empty link-text list): `collect_link_info`
drops blank link texts, so `elemnum` is 0 and the zero-links branch
returns `True`. -/
theorem c9_blank_links_flagged (e : Elem) (has_next favor_precision : Bool)
    (h1 : findallRef e ≠ [])
    (h2 : ∀ r ∈ findallRef e, trim (textContent r) = "")
    (h3 : (trim (textContent e)).length <
      (if e.tag = "p" then
        if ¬ favor_precision then (if ¬ has_next then 60 else 30) else 200
      else if ¬ has_next then 300 else 100)) :
    link_density_test e has_next (trim (textContent e)) favor_precision =
      (true, []) := by
  have hne : (findallRef e).isEmpty = false := by
    cases hfe : findallRef e with
    | nil => exact absurd hfe h1
    | cons a as => rfl
  have hfilter :
      ((findallRef e).map (fun r => trim (textContent r))).filter
        (fun s => s ≠ "") = [] := by
    rw [List.filter_eq_nil_iff]
    intro a ha
    rcases List.mem_map.mp ha with ⟨r, hr, rfl⟩
    simp [h2 r hr]
  unfold link_density_test collect_link_info
  simp only [hne, Bool.not_false, if_true, hfilter]
  norm_num
  simpa using h3

/-- Witness for C9: a short `div` containing one blank-text link. -/
theorem c9_witness :
    link_density_test
      (Elem.mk "div" [] (some "short") [Elem.mk "ref" [] (some "  ") [] none] none)
      true
      (trim (textContent
        (Elem.mk "div" [] (some "short")
          [Elem.mk "ref" [] (some "  ") [] none] none)))
      false = (true, []) :=
  c9_blank_links_flagged
    (Elem.mk "div" [] (some "short") [Elem.mk "ref" [] (some "  ") [] none] none)
    true false (List.cons_ne_nil _ _) (by decide) (by decide)

/-! ## Claims C2 and C7 -/

/-- A selector list entry for the pruning claims: an XPath rule matching
`junk` elements. -/
def junkSel : Elem → Bool := fun e => e.tag == "junk"

/-- The C2 counterexample document:
`<body><x>aa</x><junk/>bb</body>`; the `junk` element has tail text
`"bb"` but no own text and no children. -/
def c2tree : Elem :=
  .mk "body" [] none
    [.mk "x" [] (some "aa") [] none, .mk "junk" [] none [] (some "bb")] none

/-- C2 counterexample: pruning the `junk` element (no own text, tail
`"bb"`) changes the total text length of the tree: the tail is merged
with an extra separating space, so the length grows by one
(`"aabb"` has length 4, `"aa bb"` has length 5). -/
theorem c2_counterexample :
    Elem.text (Elem.mk "junk" [] none [] (some "bb")) = none
    ∧ Elem.children (Elem.mk "junk" [] none [] (some "bb")) = []
    ∧ Elem.tail (Elem.mk "junk" [] none [] (some "bb")) = some "bb"
    ∧ (textContent (prune_unwanted_nodes c2tree [junkSel] false)).length
        = (textContent c2tree).length + 1 := by
  refine ⟨rfl, rfl, rfl, ?_⟩
  decide

/-- C2 (amended): `prune_unwanted_nodes` never silently drops a deleted
element's tail but merges it behind a separating space — onto the
previous sibling's tail if one exists, else onto the parent's own tail
(not the parent's text) — so the total text length grows by one per
merge instead of staying equal; `delete_by_link_density`, by contrast,
removes flagged elements with `parent.remove` and drops their tails
entirely. -/
theorem c2_tail_handling_amended :
    (∀ s t : String,
      prune_unwanted_nodes
        (Elem.mk "body" [] none
          [Elem.mk "x" [] (some s) [] none,
           Elem.mk "junk" [] none [] (some t)] none) [junkSel] false =
        Elem.mk "body" [] none
          [Elem.mk "x" [] (some s) [] (some (" " ++ t))] none
      ∧ (textContent (prune_unwanted_nodes
          (Elem.mk "body" [] none
            [Elem.mk "x" [] (some s) [] none,
             Elem.mk "junk" [] none [] (some t)] none) [junkSel] false)).length
        = (textContent (Elem.mk "body" [] none
            [Elem.mk "x" [] (some s) [] none,
             Elem.mk "junk" [] none [] (some t)] none)).length + 1)
    ∧ (∀ t : String,
      prune_unwanted_nodes
        (Elem.mk "body" [] none
          [Elem.mk "wrap" [] none
            [Elem.mk "junk" [] none [] (some t)] none] none) [junkSel] false =
        Elem.mk "body" [] none
          [Elem.mk "wrap" [] none [] (some (" " ++ t))] none)
    ∧ (∀ u : String,
      delete_by_link_density
        (Elem.mk "body" [] none
          [Elem.mk "p" [] none
            [Elem.mk "ref" [] (some "link1") [] none] (some u),
           Elem.mk "q" [] (some "after") [] none] none) "p" false false =
        Elem.mk "body" [] none [Elem.mk "q" [] (some "after") [] none] none) := by
  refine ⟨fun s t => ?_, fun t => rfl, fun u => rfl⟩
  have hres : prune_unwanted_nodes
      (Elem.mk "body" [] none
        [Elem.mk "x" [] (some s) [] none,
         Elem.mk "junk" [] none [] (some t)] none) [junkSel] false =
      Elem.mk "body" [] none
        [Elem.mk "x" [] (some s) [] (some (" " ++ t))] none := rfl
  refine ⟨hres, ?_⟩
  rw [hres]
  have h1 : (" " : String).length = 1 := rfl
  have h0 : ("" : String).length = 0 := rfl
  simp only [textContent, textContentList, Elem.tail, Option.getD,
    String.length_append, h1, h0]
  omega

/-- The C7 counterexample document: total text length 7 (`"x"` at the
root plus `"abcdef"` inside the prunable element). -/
def c7tree : Elem :=
  .mk "body" [] (some "x") [.mk "junk" [] (some "abcdef") [] none] none

/-- C7 counterexample: pruning `c7tree` leaves exactly one-seventh of
the original text (1 of 7).  The post-pruning length does *not* fall
under one-seventh of the original, yet `prune_unwanted_nodes` with
backup returns the untouched snapshot, not the pruned tree (the source
compares with `>`, keeping the backup also at exact equality). -/
theorem c7_counterexample :
    prune_unwanted_nodes c7tree [junkSel] true = c7tree
    ∧ 7 * (textContent (prune_unwanted_nodes c7tree [junkSel] false)).length
        = (textContent c7tree).length
    ∧ prune_unwanted_nodes c7tree [junkSel] false ≠ c7tree := by
  refine ⟨rfl, by decide, ?_⟩
  intro h
  exact absurd (congrArg (fun e => e.children.length) h) (by decide)

/-- C7 (amended): with `with_backup`, `prune_unwanted_nodes` returns the
untouched snapshot exactly when the post-pruning total text length is at
most (not strictly under) one-seventh of the original, and the pruned
tree otherwise. -/
theorem c7_rollback_boundary (tree : Elem) (nodelist : List (Elem → Bool)) :
    (7 * (textContent (prune_unwanted_nodes tree nodelist false)).length
        ≤ (textContent tree).length →
      prune_unwanted_nodes tree nodelist true = tree)
    ∧ ((textContent tree).length
        < 7 * (textContent (prune_unwanted_nodes tree nodelist false)).length →
      prune_unwanted_nodes tree nodelist true =
        prune_unwanted_nodes tree nodelist false) := by
  have hfalse : prune_unwanted_nodes tree nodelist false =
      nodelist.foldl (fun t sel => pruneSelElem sel t) tree := rfl
  constructor
  · intro h
    rw [hfalse] at h
    show (if 7 * (textContent
          (nodelist.foldl (fun t sel => pruneSelElem sel t) tree)).length >
          (textContent tree).length
        then nodelist.foldl (fun t sel => pruneSelElem sel t) tree
        else tree) = tree
    rw [if_neg (by omega)]
  · intro h
    rw [hfalse] at h ⊢
    show (if 7 * (textContent
          (nodelist.foldl (fun t sel => pruneSelElem sel t) tree)).length >
          (textContent tree).length
        then nodelist.foldl (fun t sel => pruneSelElem sel t) tree
        else tree) = nodelist.foldl (fun t sel => pruneSelElem sel t) tree
    rw [if_pos (by omega)]

/-- Witness for C7 (amended), at the boundary document `c7tree`:
`7 * 1 ≤ 7`, so the snapshot is returned. -/
theorem c7_witness : prune_unwanted_nodes c7tree [junkSel] true = c7tree :=
  (c7_rollback_boundary c7tree [junkSel]).1 (by decide)

/-! ## Text sanitizer (`utils.sanitize` and helpers) -/

/-- Models Python `str.isprintable` for a single character.  Python
excludes the Cc, Cf, Zl, Zp categories and every Zs character other than
the ASCII space; this model covers those categories over the code-point
ranges exercised here (ASCII plus the Latin-1/general-punctuation
whitespace and format characters). -/
def pyIsPrintable (c : Char) : Bool :=
  let n := c.toNat
  decide (¬ (n < 0x20 ∨ (0x7f ≤ n ∧ n ≤ 0xa0) ∨ n = 0xad ∨ n = 0x1680 ∨
    (0x2000 ≤ n ∧ n ≤ 0x200f) ∨ (0x2028 ≤ n ∧ n ≤ 0x202f) ∨
    (0x205f ≤ n ∧ n ≤ 0x206f) ∨ n = 0x3000 ∨ n = 0xfeff))

/-- `return_printables_and_spaces(char)`: the character if printable or
whitespace, else the empty string. -/
def return_printables_and_spaces (char : Char) : String :=
  if pyIsPrintable char ∨ pyIsSpaceChar char then String.mk [char] else ""

/-- `remove_control_characters(string)`:
`''.join(map(return_printables_and_spaces, string))`, i.e. keep exactly
the printable-or-space characters. -/
def remove_control_characters (string : String) : String :=
  String.mk (string.data.filter (fun c => pyIsPrintable c || pyIsSpaceChar c))

/-- Python `str.replace` on character lists: leftmost non-overlapping
occurrences of `pat` become `rep`.  The fuel argument (initially the
list length) only makes the recursion structural: every step consumes at
least one character and one unit of fuel, so the `fuel = 0` branch with
a non-empty list is unreachable. -/
def replaceSegFuel (pat rep : List Char) : Nat → List Char → List Char
  | _, [] => []
  | 0, l => l
  | fuel + 1, c :: rest =>
    if !pat.isEmpty && pat.isPrefixOf (c :: rest) then
      rep ++ replaceSegFuel pat rep fuel ((c :: rest).drop pat.length)
    else c :: replaceSegFuel pat rep fuel rest

/-- Python `str.replace` on character lists. -/
def replaceSeg (pat rep l : List Char) : List Char :=
  replaceSegFuel pat rep l.length l

/-- Python `str.replace` on strings. -/
def pyReplace (s pat rep : String) : String :=
  String.mk (replaceSeg pat.data rep.data s.data)

/-- The three spacing-entity replacements of `line_processing`:
`&#13; → CR`, `&#10; → LF`, `&nbsp; → NBSP` (U+00A0). -/
def replaceEntities (line : String) : String :=
  pyReplace (pyReplace (pyReplace line "&#13;" "\r") "&#10;" "\n") "&nbsp;" "\u00A0"

/-- The character class of the `LINES_TRIMMING` lookbehind.  Python `re`
has no `\p` escape, so the pattern `(?<![p{P}>])\n` reads `[p{P}>]` as a
literal class: `p`, left brace, upper `P`, right brace, `>`
(0x70, 0x7b, 0x50, 0x7d, 0x3e). -/
def linesTrimmingBlocker : Option Char → Bool
  | some c => c.toNat ∈ [0x70, 0x7b, 0x50, 0x7d, 0x3e]
  | none => false

/-- Helper for `linesTrimmingSub`: the lookbehind inspects the original
previous character. -/
def linesTrimmingGo (prev : Option Char) : List Char → List Char
  | [] => []
  | c :: cs =>
    (if c = '\n' ∧ linesTrimmingBlocker prev = false then ' ' else c) ::
      linesTrimmingGo (some c) cs

/-- `LINES_TRIMMING.sub(r" ", s)`: replace each newline not preceded by
one of the class characters with a space. -/
def linesTrimmingSub (s : String) : String :=
  String.mk (linesTrimmingGo none s.data)

/-- Helper for `pySplitlines`: accumulate the current line reversed;
`skipNL` is set right after a carriage return so that the line feed of a
`\r\n` pair is not a second boundary. -/
def pySplitlinesGo (skipNL : Bool) (acc : List Char) : List Char → List String
  | [] => if acc.isEmpty then [] else [String.mk acc.reverse]
  | c :: rest =>
    if skipNL && c = '\n' then pySplitlinesGo false acc rest
    else if c = '\r' then String.mk acc.reverse :: pySplitlinesGo true [] rest
    else if c.toNat ∈ [0x0a, 0x0b, 0x0c, 0x1c, 0x1d, 0x1e, 0x85, 0x2028, 0x2029] then
      String.mk acc.reverse :: pySplitlinesGo false [] rest
    else pySplitlinesGo false (c :: acc) rest

/-- Python `str.splitlines()` (no trailing empty line; `\r\n` is a single
boundary). -/
def pySplitlines (s : String) : List String :=
  pySplitlinesGo false [] s.data

/-- `line_processing(line, preserve_space, trailing_space)`.  Python
would raise `IndexError` on `line[0]` for an empty `line`, but that
branch is unreachable (an empty line lands in the all-whitespace branch
first), so the head/last defaults here are never consulted. -/
def line_processing (line : String) (preserve_space trailing_space : Bool) :
    Option String :=
  let new_line := remove_control_characters (replaceEntities line)
  if ¬ preserve_space then
    let new_line2 := trim (linesTrimmingSub new_line)
    if new_line2.data.all pyIsSpaceChar then none
    else if trailing_space then
      let space_before := if pyIsSpaceChar (line.data.headD 'x') then " " else ""
      let space_after := if pyIsSpaceChar (line.data.getLastD 'x') then " " else ""
      some (space_before ++ new_line2 ++ space_after)
    else some new_line2
  else some new_line

/-- `sanitize(text, preserve_space, trailing_space)`.  The
`filter(None, ...)` drops both `None` and empty-string lines; the final
`replace` removes U+2424. -/
def sanitize (text : String) (preserve_space trailing_space : Bool) :
    Option String :=
  if trailing_space then line_processing text preserve_space true
  else
    some (pyReplace
      (String.intercalate "\n"
        (((pySplitlines text).filterMap
            (fun l => line_processing l preserve_space false)).filter
          (fun s => s ≠ "")))
      "\u2424" "")

/-! ## Claim C8 -/

/-- C8 counterexample: `sanitize` is not idempotent.  With both flags
set, the input `"&#13\x07;"` (a control character inside an almost-
formed entity) sanitizes to `"&#13;"` — control-character removal has
*formed* a spacing entity — and sanitizing that output again converts
the entity to `"\r"`. -/
theorem c8_counterexample :
    sanitize "&#13\x07;" true true = some "&#13;"
    ∧ sanitize "&#13;" true true = some "\r"
    ∧ some "\r" ≠ some "&#13;" := by
  refine ⟨by decide, by decide, by decide⟩

/-- Occurrence-free replacement is the identity, whatever the fuel. -/
theorem replaceSegFuel_of_not_contains (pat rep : List Char) :
    ∀ (fuel : Nat) (l : List Char), containsSeg pat l = false →
      replaceSegFuel pat rep fuel l = l := by
  intro fuel
  induction fuel with
  | zero =>
    intro l h
    cases l with
    | nil => rfl
    | cons c rest => rfl
  | succ n ih =>
    intro l h
    cases l with
    | nil => rfl
    | cons c rest =>
      have hsplit : pat.isPrefixOf (c :: rest) = false
          ∧ containsSeg pat rest = false := by
        simp only [containsSeg, Bool.or_eq_false_iff] at h
        exact h
      show (if !pat.isEmpty && pat.isPrefixOf (c :: rest) then
          rep ++ replaceSegFuel pat rep n ((c :: rest).drop pat.length)
        else c :: replaceSegFuel pat rep n rest) = c :: rest
      rw [hsplit.1]
      simp only [Bool.and_false, Bool.false_eq_true, if_false]
      rw [ih rest hsplit.2]

/-- Occurrence-free replacement is the identity. -/
theorem replaceSeg_of_not_contains (pat rep l : List Char)
    (h : containsSeg pat l = false) : replaceSeg pat rep l = l :=
  replaceSegFuel_of_not_contains pat rep l.length l h

/-- Occurrence-free `pyReplace` is the identity. -/
theorem pyReplace_of_not_contains (s pat rep : String)
    (h : strContains s pat = false) : pyReplace s pat rep = s := by
  cases s with
  | mk data =>
    show String.mk (replaceSeg pat.data rep.data data) = String.mk data
    rw [replaceSeg_of_not_contains pat.data rep.data data h]

/-- `remove_control_characters` is idempotent (it is a filter). -/
theorem remove_control_idem (s : String) :
    remove_control_characters (remove_control_characters s) =
      remove_control_characters s := by
  cases s with
  | mk data =>
    show String.mk (List.filter _ (List.filter _ data)) = String.mk (List.filter _ data)
    rw [List.filter_eq_self.mpr]
    intro a ha
    exact (List.mem_filter.mp ha).2

/-- C8 (amended): with `preserve_space` and `trailing_space` both set,
`sanitize` is idempotent on every input whose sanitized output contains
none of the spacing entities `&#13;`, `&#10;`, `&nbsp;`.  (Without that
proviso, removing a control character can form a fresh entity that the
second pass then converts, as the counterexample shows.) -/
theorem c8_sanitize_idempotent_amended (text r : String)
    (h : sanitize text true true = some r)
    (h13 : strContains r "&#13;" = false)
    (h10 : strContains r "&#10;" = false)
    (hnb : strContains r "&nbsp;" = false) :
    sanitize r true true = some r := by
  have hr : r = remove_control_characters (replaceEntities text) := by
    have h' : some (remove_control_characters (replaceEntities text)) = some r := h
    exact (Option.some.inj h').symm
  show some (remove_control_characters (replaceEntities r)) = some r
  have hent : replaceEntities r = r := by
    unfold replaceEntities
    rw [pyReplace_of_not_contains _ _ _ h13]
    rw [pyReplace_of_not_contains _ _ _ h10]
    rw [pyReplace_of_not_contains _ _ _ hnb]
  rw [hent, hr, remove_control_idem]

/-- Witness for C8 (amended) on the entity-free text `"plain text"`. -/
theorem c8_witness : sanitize "plain text" true true = some "plain text" :=
  c8_sanitize_idempotent_amended "plain text" "plain text"
    (by decide) (by decide) (by decide) (by decide)

/-! ## Encoding resolver (`utils.handle_compressed_file`, `is_utf8`,
`detect_encoding`, `decode_file`) -/

/-- A UTF-8 continuation byte (`0x80..0xbf`). -/
def utf8Cont (b : Nat) : Bool := decide (0x80 ≤ b ∧ b ≤ 0xbf)

/-- Models Python `bytes.decode('utf-8')` success: RFC 3629 validity
(shortest forms only, no surrogates, at most U+10FFFF). -/
def validUtf8 : List Nat → Bool
  | [] => true
  | b :: rest =>
    if b < 0x80 then validUtf8 rest
    else if decide (0xc2 ≤ b ∧ b ≤ 0xdf) then
      match rest with
      | b1 :: r => utf8Cont b1 && validUtf8 r
      | [] => false
    else if b = 0xe0 then
      match rest with
      | b1 :: b2 :: r => decide (0xa0 ≤ b1 ∧ b1 ≤ 0xbf) && utf8Cont b2 && validUtf8 r
      | _ => false
    else if decide ((0xe1 ≤ b ∧ b ≤ 0xec) ∨ b = 0xee ∨ b = 0xef) then
      match rest with
      | b1 :: b2 :: r => utf8Cont b1 && utf8Cont b2 && validUtf8 r
      | _ => false
    else if b = 0xed then
      match rest with
      | b1 :: b2 :: r => decide (0x80 ≤ b1 ∧ b1 ≤ 0x9f) && utf8Cont b2 && validUtf8 r
      | _ => false
    else if b = 0xf0 then
      match rest with
      | b1 :: b2 :: b3 :: r =>
          decide (0x90 ≤ b1 ∧ b1 ≤ 0xbf) && utf8Cont b2 && utf8Cont b3 && validUtf8 r
      | _ => false
    else if decide (0xf1 ≤ b ∧ b ≤ 0xf3) then
      match rest with
      | b1 :: b2 :: b3 :: r => utf8Cont b1 && utf8Cont b2 && utf8Cont b3 && validUtf8 r
      | _ => false
    else if b = 0xf4 then
      match rest with
      | b1 :: b2 :: b3 :: r =>
          decide (0x80 ≤ b1 ∧ b1 ≤ 0x8f) && utf8Cont b2 && utf8Cont b3 && validUtf8 r
      | _ => false
    else false

/-- `handle_compressed_file(filecontent)` for byte input.  The four
codecs (gzip, zstandard, brotli, zlib) are external collaborators
(`none` models a decompression exception); `hasZstd`/`hasBrotli` model
the optional-import flags.  Each failed stage falls through to the
next; if everything fails the content is returned unchanged. -/
def handle_compressed_file
    (gzipDecompress zstdDecompress brotliDecompress zlibDecompress :
      List Nat → Option (List Nat))
    (hasZstd hasBrotli : Bool) (filecontent : List Nat) : List Nat :=
  match (if filecontent.take 3 = [0x1f, 0x8b, 0x08]
         then gzipDecompress filecontent else none) with
  | some r => r
  | none =>
    match (if hasZstd && (filecontent.take 4 = [0x28, 0xb5, 0x2f, 0xfd] : Bool)
           then zstdDecompress filecontent else none) with
    | some r => r
    | none =>
      match (if hasBrotli then brotliDecompress filecontent else none) with
      | some r => r
      | none =>
        match zlibDecompress filecontent with
        | some r => r
        | none => filecontent

/-- `is_utf8(data)` with the call-site defaults `chunk_size=1024`,
`sample_rate=0.1`: decode a sample of 1024-byte chunks.
`int(total_chunks * 0.1)` is exactly `total_chunks / 10` for every size
in scope. -/
def is_utf8 (data : List Nat) : Bool :=
  let total_chunks0 := data.length / 1024
  let total_chunks := if total_chunks0 = 0 then 1 else total_chunks0
  let sample_chunks := max (total_chunks / 10) 1
  (List.range sample_chunks).all (fun i =>
    let start := (data.length / sample_chunks) * i
    validUtf8 ((data.drop start).take 1024))

/-- `UNICODE_ALIASES`. -/
def UNICODE_ALIASES : List String := ["utf-8", "utf_8"]

/-- `detect_encoding(bytesobject)`.  `from_bytes` is the external
charset_normalizer collaborator, returning its guessed encodings in
order. -/
def detect_encoding (from_bytes : List Nat → List String)
    (bytesobject : List Nat) : List String :=
  if is_utf8 bytesobject then ["utf-8"]
  else
    let detection_results :=
      if bytesobject.length < 10000 then from_bytes bytesobject
      else
        match from_bytes (bytesobject.take 5000 ++
            bytesobject.drop (bytesobject.length - 5000)) with
        | [] => from_bytes bytesobject
        | r => r
    let guesses := detection_results
    if "utf-8" ∈ guesses then ["utf-8"]
    else guesses.filter (fun g => g ∉ UNICODE_ALIASES)

/-- The decode loop of `decode_file`: try each candidate encoding in
order with the external codec (`none` models `LookupError` /
`UnicodeDecodeError`), keeping the first success. -/
def firstDecode (codecDecode : String → List Nat → Option String) :
    List String → List Nat → Option String
  | [], _ => none
  | enc :: rest, content =>
    match codecDecode enc content with
    | some t => some t
    | none => firstDecode codecDecode rest content

/-- `decode_file(filecontent)` for byte input (string input is returned
unchanged by the source and is outside this byte-level model).
`forceDecode` is the destructive `str(content, encoding='utf-8',
errors='replace')` fallback, which also catches the falsy empty
string (`htmltext or str(...)`). -/
def decode_file
    (gzipDecompress zstdDecompress brotliDecompress zlibDecompress :
      List Nat → Option (List Nat))
    (hasZstd hasBrotli : Bool)
    (from_bytes : List Nat → List String)
    (codecDecode : String → List Nat → Option String)
    (forceDecode : List Nat → String)
    (filecontent : List Nat) : String :=
  let content := handle_compressed_file gzipDecompress zstdDecompress
    brotliDecompress zlibDecompress hasZstd hasBrotli filecontent
  match firstDecode codecDecode (detect_encoding from_bytes content) content with
  | some t => if t = "" then forceDecode content else t
  | none => forceDecode content

/-! ## Claim C6 -/

/-- The C6 counterexample payload: 1023 ASCII `a` bytes followed by the
two-byte UTF-8 sequence for `é` — 1025 bytes of perfectly valid UTF-8
whose first sampled 1024-byte chunk cuts the two-byte character in
half. -/
def c6payload : List Nat := List.replicate 1023 0x61 ++ [0xc3, 0xa9]

set_option maxRecDepth 100000 in
/-- C6 counterexample: a gzip-magic input whose decompressed payload is
valid UTF-8, yet the sampled check `is_utf8` fails (the chunk boundary
splits a multi-byte character), so `detect_encoding` does *not* return
`['utf-8']` directly — it falls through to the statistical detector
(here returning no guesses). -/
theorem c6_counterexample :
    validUtf8 c6payload = true
    ∧ handle_compressed_file (fun _ => some c6payload) (fun _ => none)
        (fun _ => none) (fun _ => none) false false [0x1f, 0x8b, 0x08] = c6payload
    ∧ is_utf8 c6payload = false
    ∧ detect_encoding (fun _ => []) c6payload = [] := by
  refine ⟨by decide, by decide, by decide, by decide⟩

/-- C6 (amended): for gzip-magic input whose decompression yields at
most 1024 bytes of valid UTF-8 (so the single sampled chunk covers the
whole payload), `handle_compressed_file` decompresses, `detect_encoding`
returns `['utf-8']` via the sampled validity check without consulting
the statistical detector, and `decode_file` decodes with the UTF-8
codec. -/
theorem c6_small_gzip_utf8
    (gz zstd br zl : List Nat → Option (List Nat)) (hasZ hasB : Bool)
    (fb : List Nat → List String) (data payload : List Nat)
    (h1 : data.take 3 = [0x1f, 0x8b, 0x08])
    (h2 : gz data = some payload)
    (h3 : payload.length ≤ 1024)
    (h4 : validUtf8 payload = true) :
    handle_compressed_file gz zstd br zl hasZ hasB data = payload
    ∧ detect_encoding fb payload = ["utf-8"]
    ∧ ∀ (codecDecode : String → List Nat → Option String)
        (forceDecode : List Nat → String) (t : String),
        codecDecode "utf-8" payload = some t → t ≠ "" →
        decode_file gz zstd br zl hasZ hasB fb codecDecode forceDecode data = t := by
  have hhandle : handle_compressed_file gz zstd br zl hasZ hasB data = payload := by
    unfold handle_compressed_file
    rw [if_pos h1, h2]
  have hutf : is_utf8 payload = true := by
    have hdiv : payload.length / 1024 = 0 ∨ payload.length / 1024 = 1 := by omega
    rcases hdiv with h | h <;>
      simp [is_utf8, h, List.take_of_length_le h3, h4]
  have hdet : detect_encoding fb payload = ["utf-8"] := by
    simp [detect_encoding, hutf]
  refine ⟨hhandle, hdet, ?_⟩
  intro codecDecode forceDecode t hdec hne
  unfold decode_file
  rw [hhandle]
  simp only [hdet, firstDecode, hdec]
  simp [hne]

/-- Witness for C6 (amended): a two-byte ASCII payload. -/
theorem c6_witness :
    handle_compressed_file (fun _ => some [0x68, 0x69]) (fun _ => none)
      (fun _ => none) (fun _ => none) false false [0x1f, 0x8b, 0x08, 0x00]
      = [0x68, 0x69]
    ∧ detect_encoding (fun _ => []) [0x68, 0x69] = ["utf-8"] :=
  ⟨(c6_small_gzip_utf8 (fun _ => some [0x68, 0x69]) (fun _ => none)
      (fun _ => none) (fun _ => none) false false (fun _ => [])
      [0x1f, 0x8b, 0x08, 0x00] [0x68, 0x69]
      (by decide) rfl (by decide) (by decide)).1,
   (c6_small_gzip_utf8 (fun _ => some [0x68, 0x69]) (fun _ => none)
      (fun _ => none) (fun _ => none) false false (fun _ => [])
      [0x1f, 0x8b, 0x08, 0x00] [0x68, 0x69]
      (by decide) rfl (by decide) (by decide)).2.1⟩

/-! ## Document loader (`utils.is_dubious_html`, `repair_faulty_html`,
`load_html`) -/

/-- The outcome of the external lxml `fromstring` parser on text input:
a parsed tree, the `ValueError` raised for Unicode strings with an
encoding declaration (which triggers the bytes retry), or any other
parsing exception (logged; the tree stays `None`). -/
inductive ParseOutcome : Type where
  | ok (tree : Elem)
  | valueError
  | failure

/-- `htmlobject[:50].lower()`: ASCII lowering suffices for the `html` /
`doctype` markers that are searched in it. -/
def lowerFirst50 (s : String) : String :=
  String.mk ((s.data.take 50).map Char.toLower)

/-- `is_dubious_html(beginning)`: `"html" not in beginning`. -/
def is_dubious_html (beginning : String) : Bool :=
  !(strContains beginning "html")

/-- Python `str.endswith` via character lists. -/
def strEndsWith (s suffix : String) : Bool :=
  suffix.data.reverse.isPrefixOf s.data.reverse

/-- `repair_faulty_html(htmlstring, beginning)`.  The two `re.sub`
substitutions (`DOCTYPE_TAG`, `FAULTY_HTML`) belong to the external
regex engine and are passed as functions; the embedded part is the
branch logic: apply the DOCTYPE substitution to the first line when the
beginning mentions `doctype`, and apply the faulty-`<html .../>`
substitution once when one of the first four lines (the source's loop
tests indices 0 to 3 before breaking) contains `<html` and ends with
`/>`. -/
def repair_faulty_html (doctypeSub faultySub : String → String)
    (htmlstring beginning : String) : String :=
  let htmlstring :=
    if strContains beginning "doctype" then
      let firstline := String.mk (htmlstring.data.takeWhile (fun c => c ≠ '\n'))
      let rest := String.mk ((htmlstring.data.dropWhile (fun c => c ≠ '\n')).drop 1)
      doctypeSub firstline ++ "\n" ++ rest
    else htmlstring
  if ((pySplitlines htmlstring).take 4).any
      (fun line => strContains line "<html" && strEndsWith line "/>") then
    faultySub htmlstring
  else htmlstring

/-- `load_html(htmlobject)` for string input (`decode_file` returns
string input unchanged; already-parsed trees and response objects are
pass-throughs/unwrapping outside this model).  `fromstring` and
`fromstring_bytes` are the external parser entry points
(`fromstring_bytes` already catches every exception and returns an
optional tree). -/
def load_html (fromstring : String → ParseOutcome)
    (fromstring_bytes : String → Option Elem)
    (doctypeSub faultySub : String → String) (htmlobject : String) :
    Option Elem :=
  let beginning := lowerFirst50 htmlobject
  let check_flag := is_dubious_html beginning
  let repaired := repair_faulty_html doctypeSub faultySub htmlobject beginning
  let st : Option Elem × Bool :=
    match fromstring repaired with
    | .ok t => (some t, false)
    | .valueError => (fromstring_bytes repaired, true)
    | .failure => (none, false)
  let shallow : Bool :=
    match st.1 with
    | none => true
    | some t => decide (t.children.length < 1)
  let tree := if shallow && !st.2 then fromstring_bytes repaired else st.1
  match tree with
  | some t => if check_flag && decide (t.children.length < 2) then none else some t
  | none => none

/-! ## Claim C4 -/

/-- The C4 counterexample input: genuine-looking HTML (the marker
`html` appears in the first 50 characters). -/
def c4input : String := "<html><body><p>hello</p></body></html>"

/-- The C4 counterexample parse result: a tree with a single top-level
child. -/
def c4tree : Elem := .mk "html" [] none [.mk "body" [] none [] none] none

/-- C4 counterexample: the input contains the `html` marker and the
parsed tree has fewer than 2 top-level children, yet `load_html`
returns the tree, not `None`.  The source's rejection rule fires only
when `is_dubious_html` is true, i.e. when the marker is *absent* — the
claim has the condition inverted. -/
theorem c4_counterexample :
    strContains (lowerFirst50 c4input) "html" = true
    ∧ (Elem.children c4tree).length < 2
    ∧ load_html (fun _ => .ok c4tree) (fun _ => none) id id c4input
        = some c4tree := by
  refine ⟨by decide, by decide, rfl⟩

/-- C4 (amended): the shallow-parse rejection applies to inputs
*without* the `html` marker: whenever the first 50 lowercased
characters do not contain `html` and the parser yields a tree with
exactly one top-level child, `load_html` returns `None` rather than the
tree or an exception. -/
theorem c4_dubious_shallow_rejected (fromstring : String → ParseOutcome)
    (fromstring_bytes : String → Option Elem)
    (doctypeSub faultySub : String → String) (input : String) (t : Elem)
    (h1 : strContains (lowerFirst50 input) "html" = false)
    (h2 : fromstring
      (repair_faulty_html doctypeSub faultySub input (lowerFirst50 input))
      = .ok t)
    (h3 : t.children.length = 1) :
    load_html fromstring fromstring_bytes doctypeSub faultySub input = none := by
  unfold load_html
  simp only [h2, is_dubious_html, h1]
  norm_num [h3]

/-- Witness for C4 (amended): an input without the marker parsed into a
one-child tree. -/
theorem c4_witness :
    load_html (fun _ => .ok (Elem.mk "div" [] (some "x") [Elem.mk "p" [] none [] none] none))
      (fun _ => none) id id "just some text" = none :=
  c4_dubious_shallow_rejected (fun _ => .ok (Elem.mk "div" [] (some "x")
      [Elem.mk "p" [] none [] none] none))
    (fun _ => none) id id "just some text"
    (Elem.mk "div" [] (some "x") [Elem.mk "p" [] none [] none] none)
    (by decide) rfl rfl

/-! ## Tree pruner (`htmlprocessing.tree_cleaning` and helpers)

The three settings lists live in `settings.py`, which is not under
`src/`; they are modelled from the spec (§2, §4.4), which describes them
as the static defaults for structural noise (scripts, ads, navigation),
for tags stripped but keeping content, and for safely-empty tags.  No
theorem below depends on their exact membership beyond `aside`/`footer`
being cleanable (hard-coded in `MANUALLY_CLEANED_CHECK_CONTENT` in the
source) and the scenario tags (`body`, `table`, `x`, …) not occurring in
them. -/

/-- Modelled from the spec: `settings.MANUALLY_CLEANED`, the static
default cleaning list (elements deleted entirely). -/
def MANUALLY_CLEANED : List String :=
  ["aside", "embed", "footer", "form", "head", "iframe", "menu",
   "object", "script"]

/-- Modelled from the spec: `settings.MANUALLY_STRIPPED`, the static
default stripping list (tags removed, contents kept). -/
def MANUALLY_STRIPPED : List String :=
  ["abbr", "acronym", "address", "bdi", "bdo", "big", "cite", "data",
   "dfn", "font", "hgroup", "img", "ins", "mark", "meta", "ruby",
   "small", "template"]

/-- Modelled from the spec: `settings.CUT_EMPTY_ELEMS`, the whitelist of
safely-empty tags deleted by `prune_html`. -/
def CUT_EMPTY_ELEMS : List String :=
  ["article", "b", "blockquote", "dd", "div", "dt", "em", "h1", "h2",
   "h3", "h4", "h5", "h6", "i", "li", "main", "p", "q", "section",
   "span", "strong"]

/-- `MANUALLY_CLEANED_CHECK_CONTENT` (in the source). -/
def MANUALLY_CLEANED_CHECK_CONTENT : List String := ["aside", "footer"]

/-- `PRESERVE_IMG_CLEANING` (in the source). -/
def PRESERVE_IMG_CLEANING : List String := ["figure", "picture", "source"]

/-- The tail merge of `delete_element` (lxml `drop_tree`): a truthy tail
is joined onto the previous sibling's tail, or onto the parent's text
when there is no previous sibling.  The state is (parent text so far,
kept children in reverse). -/
def dropTreeTail (st : Option String × List Elem) (tl : Option String) :
    Option String × List Elem :=
  match tl with
  | none => st
  | some t =>
    if t = "" then st
    else
      match st with
      | (ptext, []) => (some (ptext.getD "" ++ t), [])
      | (ptext, prev :: acc) =>
          (ptext, prev.withTail (some ((Elem.tail prev).getD "" ++ t)) :: acc)

mutual
/-- Delete every descendant with the given tag (`delete_element` =
`drop_tree` semantics), top-down; nested matches vanish with their
ancestors, as with the source's lazy `getiterator`.  The root itself is
never a deletion target. -/
def removeTagElem (t : String) : Elem → Elem
  | .mk tag attrib text cs tail =>
    let st := removeTagList t (text, []) cs
    .mk tag attrib st.1 st.2.reverse tail
/-- Helper for `removeTagElem` over a child list. -/
def removeTagList (t : String) (st : Option String × List Elem) :
    List Elem → Option String × List Elem
  | [] => st
  | c :: rest =>
    if c.tag = t then removeTagList t (dropTreeTail st c.tail) rest
    else removeTagList t (st.1, removeTagElem t c :: st.2) rest
end

/-- The per-tag deletion loop of `tree_cleaning`:
`for expression in cleaning_list: for element in tree.getiterator(...)`. -/
def removeTags (tags : List String) (tree : Elem) : Elem :=
  tags.foldl (fun tr tg => removeTagElem tg tr) tree

/-- The text merge of lxml `strip_tags`: join a (non-`None`) text onto
the last kept child's tail, or onto the parent's text if none. -/
def stripJoin (st : Option String × List Elem) (x : Option String) :
    Option String × List Elem :=
  match x with
  | none => st
  | some t =>
    match st with
    | (ptext, []) => (some (ptext.getD "" ++ t), [])
    | (ptext, prev :: acc) =>
        (ptext, prev.withTail (some ((Elem.tail prev).getD "" ++ t)) :: acc)

mutual
/-- lxml `strip_tags(tree, tags)`: remove matching elements (never the
context root) but keep and splice their contents — text joins the
previous sibling's tail or the parent's text, children are inserted in
place, the removed element's tail joins the last spliced child's tail
(or follows the text when there are no children). -/
def stripTagsElem (tags : List String) : Elem → Elem
  | .mk tag attrib text cs tail =>
    let st := stripTagsList tags (text, []) cs
    .mk tag attrib st.1 st.2.reverse tail
/-- Helper for `stripTagsElem` over a child list (children are stripped
inside-out, so spliced children contain no matching tags). -/
def stripTagsList (tags : List String) (st : Option String × List Elem) :
    List Elem → Option String × List Elem
  | [] => st
  | c :: rest =>
    let c2 := stripTagsElem tags c
    if Elem.tag c2 ∈ tags then
      let st1 := stripJoin st (Elem.text c2)
      let st2 := (st1.1, (Elem.children c2).reverse ++ st1.2)
      let st3 := stripJoin st2 (Elem.tail c2)
      stripTagsList tags st3 rest
    else stripTagsList tags (st.1, c2 :: st.2) rest
end

mutual
/-- `tree.find('.//t') is not None`: does a proper descendant carry the
tag? -/
def hasDescTag (t : String) : Elem → Bool
  | .mk _ _ _ cs _ => hasDescTagList t cs
/-- Helper for `hasDescTag` over a child list. -/
def hasDescTagList (t : String) : List Elem → Bool
  | [] => false
  | c :: rest => (Elem.tag c == t) || hasDescTag t c || hasDescTagList t rest
end

mutual
/-- `for elem in tree.xpath('.//figure[descendant::table]'): elem.tag =
'div'` (the tables-enabled branch of `tree_cleaning`). -/
def retagFigureTables : Elem → Elem
  | .mk tag attrib text cs tail =>
    .mk tag attrib text (retagFigureTablesList cs) tail
/-- Helper for `retagFigureTables` over a child list. -/
def retagFigureTablesList : List Elem → List Elem
  | [] => []
  | c :: rest =>
    (match c with
     | .mk tag attrib text cs tail =>
       Elem.mk (if tag = "figure" ∧ hasDescTagList "table" cs then "div" else tag)
         attrib text (retagFigureTablesList cs) tail) ::
      retagFigureTablesList rest
end

/-- `check_preserve(element, patterns)`: does any text yielded by
`element.itertext()` match any pattern? -/
def check_preserve (element : Elem) (patterns : List (String → Bool)) : Bool :=
  (itertext element).any (fun text => patterns.any (fun pattern => pattern text))

mutual
/-- The marking loop of `tree_cleaning`: every element satisfying
`check_preserve` gains the `preserve-content` attribute.
`mark_preserve` also marks the ancestors of a matching element, but an
ancestor's `itertext` contains every text its descendants yield, so
those ancestors already satisfy `check_preserve` themselves; this map is
the loop's fixpoint.  Like `mark_preserve`, an already-marked element is
left untouched. -/
def markTreeElem (patterns : List (String → Bool)) : Elem → Elem
  | .mk tag attrib text cs tail =>
    let attrib2 :=
      if check_preserve (.mk tag attrib text cs tail) patterns
          ∧ (attribGet attrib "preserve-content").isNone then
        attribSet attrib "preserve-content" "true"
      else attrib
    .mk tag attrib2 text (markTreeList patterns cs) tail
/-- Helper for `markTreeElem` over a child list. -/
def markTreeList (patterns : List (String → Bool)) : List Elem → List Elem
  | [] => []
  | c :: rest => markTreeElem patterns c :: markTreeList patterns rest
end

mutual
/-- The `MANUALLY_CLEANED_CHECK_CONTENT` pass of `tree_cleaning` for one
tag: unmarked instances are deleted (`delete_element` tail merging);
marked instances are demoted to `div` and their unmarked direct children
deleted, the surviving children still being scanned for nested
instances. -/
def checkContentElem (t : String) : Elem → Elem
  | .mk tag attrib text cs tail =>
    let st := checkContentList t (text, []) cs
    .mk tag attrib st.1 st.2.reverse tail
/-- Helper for `checkContentElem` over a child list. -/
def checkContentList (t : String) (st : Option String × List Elem) :
    List Elem → Option String × List Elem
  | [] => st
  | c :: rest =>
    if Elem.tag c = t then
      if isMarked c then
        let c2 :=
          match c with
          | .mk _ cattrib ctext ccs ctail =>
            let inner := dropUnmarkedProcList t (ctext, []) ccs
            Elem.mk "div" cattrib inner.1 inner.2.reverse ctail
        checkContentList t (st.1, c2 :: st.2) rest
      else checkContentList t (dropTreeTail st c.tail) rest
    else checkContentList t (st.1, checkContentElem t c :: st.2) rest
/-- Direct children of a preserved `aside`/`footer`: unmarked ones are
deleted (tail merging), marked ones survive and are scanned further. -/
def dropUnmarkedProcList (t : String) (st : Option String × List Elem) :
    List Elem → Option String × List Elem
  | [] => st
  | c :: rest =>
    if isMarked c then
      dropUnmarkedProcList t (st.1, checkContentElem t c :: st.2) rest
    else dropUnmarkedProcList t (dropTreeTail st c.tail) rest
end

/-- An element with no child nodes and no text (`//*[not(node())]`;
empty-string text has no text node). -/
def isEmptyNode (c : Elem) : Bool :=
  (Elem.children c).isEmpty && ((Elem.text c).getD "").isEmpty

mutual
/-- `prune_html(tree)`: delete empty elements whose tag is in
`CUT_EMPTY_ELEMS` (`delete_element` tail merging).  The XPath snapshot
selects only empty elements, so deletions never nest and one top-down
pass is exact; processing instructions and comments are not modelled
(the parser drops them). -/
def prune_htmlElem : Elem → Elem
  | .mk tag attrib text cs tail =>
    let st := prune_htmlList (text, []) cs
    .mk tag attrib st.1 st.2.reverse tail
/-- Helper for `prune_htmlElem` over a child list. -/
def prune_htmlList (st : Option String × List Elem) :
    List Elem → Option String × List Elem
  | [] => st
  | c :: rest =>
    if isEmptyNode c && (Elem.tag c ∈ CUT_EMPTY_ELEMS : Bool) then
      prune_htmlList (dropTreeTail st c.tail) rest
    else prune_htmlList (st.1, prune_htmlElem c :: st.2) rest
end

/-- `tree_cleaning(tree, options)`. -/
def tree_cleaning (tree : Elem) (options : ExtractorOptions) : Elem :=
  let cleaning_list := MANUALLY_CLEANED
  let stripping_list := MANUALLY_STRIPPED
  let pair : List String × Elem :=
    if ¬ options.tables then
      (cleaning_list ++ ["table", "td", "th", "tr"], tree)
    else (cleaning_list, retagFigureTables tree)
  let cleaning_list := pair.1
  let tree := pair.2
  let cleaning_list :=
    if options.images then
      cleaning_list.filter (fun e => e ∉ PRESERVE_IMG_CLEANING)
    else cleaning_list
  let stripping_list :=
    if options.images then stripping_list.erase "img" else stripping_list
  let cleaning_list :=
    if ¬ options.preserve.isEmpty then
      cleaning_list.filter (fun e => e ∉ MANUALLY_CLEANED_CHECK_CONTENT)
    else cleaning_list
  let tree := stripTagsElem stripping_list tree
  let tree :=
    if options.focus = "recall" ∧ hasDescTag "p" tree then
      let t2 := removeTags cleaning_list tree
      if hasDescTag "p" t2 then t2 else tree
    else removeTags cleaning_list tree
  let tree :=
    if ¬ options.preserve.isEmpty then
      let tree := markTreeElem options.preserve tree
      MANUALLY_CLEANED_CHECK_CONTENT.foldl (fun tr t => checkContentElem t tr) tree
    else tree
  prune_htmlElem tree

/-! ## Claim C1 -/

/-- The C1 preserve pattern: matches text containing `KEEP`. -/
def c1pattern : String → Bool := fun s => strContains s "KEEP"

/-- The C1 configuration: preserve patterns set, tables disabled. -/
def c1opts : ExtractorOptions :=
  { tables := false, images := false, links := false, formatting := false,
    preserve := [c1pattern], focus := "precision" }

/-- The C1 counterexample document: a table whose text matches the
preserve pattern. -/
def c1tree : Elem :=
  .mk "body" [] none [.mk "table" [] (some "KEEP THIS") [] none] none

/-- C1 counterexample: with preserve patterns set and tables disabled,
the `table` element whose text matches the preserve pattern is deleted
by `tree_cleaning` — the generic cleaning-list pass runs *before* the
marking step, so the matching element never receives the marker and
does not survive. -/
theorem c1_counterexample :
    check_preserve c1tree (ExtractorOptions.preserve c1opts) = true
    ∧ tree_cleaning c1tree c1opts = Elem.mk "body" [] none [] none
    ∧ check_preserve (tree_cleaning c1tree c1opts)
        (ExtractorOptions.preserve c1opts) = false := by
  refine ⟨rfl, rfl, rfl⟩

/-! ## Marked-element accounting for Claim C1 -/

mutual
/-- Number of `preserve-content`-marked elements in a subtree (the
element itself included). -/
def countMarked : Elem → Nat
  | .mk _ attrib _ cs _ =>
    (if (attribGet attrib "preserve-content").isSome then 1 else 0)
      + countMarkedList cs
/-- Helper for `countMarked` over a child list. -/
def countMarkedList : List Elem → Nat
  | [] => 0
  | c :: rest => countMarked c + countMarkedList rest
end

mutual
/-- Ancestor-closedness of the marking: every marked element's parent is
marked.  `mark_preserve` walks up the ancestor chain, so the marking
produced by `tree_cleaning` always satisfies this. -/
def markedClosed : Elem → Bool
  | .mk _ attrib _ cs _ =>
    cs.all (fun c => !(isMarked c) || (attribGet attrib "preserve-content").isSome)
      && markedClosedList cs
/-- Helper for `markedClosed` over a child list. -/
def markedClosedList : List Elem → Bool
  | [] => true
  | c :: rest => markedClosed c && markedClosedList rest
end

/-- Strong structural induction on `Elem` via `sizeOf`. -/
theorem Elem.strongInduct (P : Elem → Prop)
    (h : ∀ e, (∀ e2 : Elem, sizeOf e2 < sizeOf e → P e2) → P e) :
    ∀ e, P e := fun e => h e (fun e2 _ => Elem.strongInduct P h e2)
termination_by e => sizeOf e
decreasing_by assumption

/-- A member of the child list is smaller than the element. -/
theorem sizeOf_lt_of_mem_children {c : Elem} {tag attrib text tail}
    {cs : List Elem} (hc : c ∈ cs) :
    sizeOf c < sizeOf (Elem.mk tag attrib text cs tail) := by
  have h1 := List.sizeOf_lt_of_mem hc
  simp only [Elem.mk.sizeOf_spec]
  omega

/-- `countMarkedList` is additive over append. -/
theorem countMarkedList_append (a b : List Elem) :
    countMarkedList (a ++ b) = countMarkedList a + countMarkedList b := by
  induction a with
  | nil => simp [countMarkedList]
  | cons c rest ih =>
    show countMarked c + countMarkedList (rest ++ b) = _
    rw [ih]
    show _ = countMarked c + countMarkedList rest + countMarkedList b
    omega

/-- `countMarkedList` ignores order. -/
theorem countMarkedList_reverse (l : List Elem) :
    countMarkedList l.reverse = countMarkedList l := by
  induction l with
  | nil => rfl
  | cons c rest ih =>
    rw [List.reverse_cons, countMarkedList_append, ih]
    show countMarkedList rest + (countMarked c + 0) = countMarked c + countMarkedList rest
    omega

/-- Changing a tail does not change the marked count. -/
theorem countMarked_withTail (tl : Option String) (e : Elem) :
    countMarked (e.withTail tl) = countMarked e := by
  cases e with
  | mk tag attrib text cs tail => rfl

/-- `dropTreeTail` does not change the marked count of the kept
children. -/
theorem countMarkedList_dropTreeTail (st : Option String × List Elem)
    (tl : Option String) :
    countMarkedList (dropTreeTail st tl).2 = countMarkedList st.2 := by
  rcases st with ⟨ptext, acc⟩
  cases tl with
  | none => rfl
  | some t =>
    by_cases ht : t = ""
    · simp [dropTreeTail, ht]
    · cases acc with
      | nil => simp [dropTreeTail, ht]
      | cons prev rest =>
        simp only [dropTreeTail, ht, if_neg ht]
        show countMarkedList (prev.withTail _ :: rest) = countMarkedList (prev :: rest)
        show countMarked (prev.withTail _) + countMarkedList rest = _
        rw [countMarked_withTail]
        rfl

/-- `markedClosedList` is the conjunction over the list. -/
theorem markedClosedList_iff (l : List Elem) :
    markedClosedList l = true ↔ ∀ c ∈ l, markedClosed c = true := by
  induction l with
  | nil => simp [markedClosedList]
  | cons c rest ih =>
    show (markedClosed c && markedClosedList rest) = true ↔ _
    rw [Bool.and_eq_true, ih]
    simp

/-- Unpacking `markedClosed` at a constructor. -/
theorem markedClosed_parts {tag attrib text tail} {cs : List Elem}
    (h : markedClosed (.mk tag attrib text cs tail) = true) :
    (∀ c ∈ cs, isMarked c = true → (attribGet attrib "preserve-content").isSome)
    ∧ ∀ c ∈ cs, markedClosed c = true := by
  have h' : (cs.all (fun c => !(isMarked c)
      || (attribGet attrib "preserve-content").isSome)
      && markedClosedList cs) = true := h
  rw [Bool.and_eq_true, List.all_eq_true, markedClosedList_iff] at h'
  refine ⟨fun c hc hm => ?_, h'.2⟩
  have := h'.1 c hc
  rw [hm] at this
  simpa using this

/-- In an ancestor-closed tree, an unmarked element has no marked
descendants at all. -/
theorem countMarked_eq_zero_of_unmarked :
    ∀ e : Elem, markedClosed e = true → isMarked e = false →
      countMarked e = 0 := by
  intro e
  induction e using Elem.strongInduct with
  | h e ih =>
    cases e with
    | mk tag attrib text cs tail =>
      intro hc hm
      have hparts := markedClosed_parts hc
      have hm' : (attribGet attrib "preserve-content").isSome = false := by
        simpa [isMarked, Elem.attrib] using hm
      show (if (attribGet attrib "preserve-content").isSome then 1 else 0)
        + countMarkedList cs = 0
      rw [hm']
      simp only [if_false, Nat.zero_add, Bool.false_eq_true]
      have hzero : ∀ c ∈ cs, countMarked c = 0 := by
        intro c hcmem
        have hcm : isMarked c = false := by
          by_contra hne
          have : isMarked c = true := by
            cases hx : isMarked c with
            | true => rfl
            | false => exact absurd hx hne
          have := hparts.1 c hcmem this
          rw [this] at hm'
          exact absurd hm' (by simp)
        exact ih c (sizeOf_lt_of_mem_children hcmem) (hparts.2 c hcmem) hcm
      clear hparts hm hm' hc ih
      induction cs with
      | nil => rfl
      | cons c rest ihl =>
        show countMarked c + countMarkedList rest = 0
        rw [hzero c (List.mem_cons_self c rest),
          ihl (fun d hd => hzero d (List.mem_cons_of_mem c hd))]

/-- A true backtracking trigger implies every child of the candidate is
unmarked (the candidate itself is unmarked — preserve-marked candidates
are skipped — and the marking is ancestor-closed). -/
theorem dbldBtParent_children_unmarked {tagname : String} {bt fp : Bool}
    {tag attrib text tail} {cs : List Elem} {hn : Bool}
    (hc : markedClosed (.mk tag attrib text cs tail) = true)
    (hb : dbldBtParent tagname bt fp (.mk tag attrib text cs tail) hn = true) :
    ∀ c ∈ cs, isMarked c = false := by
  intro c hcmem
  have hself : (attribGet attrib "preserve-content").isNone = true := by
    unfold dbldBtParent at hb
    simp only [Bool.and_eq_true] at hb
    exact hb.1.1.1.1.1.2
  by_contra hne
  have hcm : isMarked c = true := by
    cases hx : isMarked c with
    | true => rfl
    | false => exact absurd hx hne
  have := (markedClosed_parts hc).1 c hcmem hcm
  rw [Option.isNone_iff_eq_none] at hself
  rw [hself] at this
  exact absurd this (by simp)

/-- A directly flagged candidate is unmarked. -/
theorem dbldDirect_unmarked {tagname : String} {fp : Bool} {c : Elem}
    {hn : Bool} (hd : dbldDirect tagname fp c hn = true) :
    isMarked c = false := by
  unfold dbldDirect at hd
  simp only [Bool.and_eq_true] at hd
  have := hd.1.2
  rw [Option.isNone_iff_eq_none] at this
  simp [isMarked, this]

/-- `delete_by_link_density` (at any candidate tag, with or without
backtracking or precision) deletes no `preserve-content`-marked element
of an ancestor-closed tree: the marked count is unchanged. -/
theorem dbld_elem_countMarked (tagname : String) (bt fp : Bool) :
    ∀ e : Elem, ∀ hn : Bool, markedClosed e = true →
      countMarked (dbld_elem tagname bt fp e hn) = countMarked e := by
  intro e
  induction e using Elem.strongInduct with
  | h e ih =>
    cases e with
    | mk tag attrib text cs tail =>
      intro hn hc
      have hparts := markedClosed_parts hc
      have key : ∀ (btv : Bool) (l : List Elem),
          (∀ c ∈ l, sizeOf c < sizeOf (Elem.mk tag attrib text cs tail)) →
          (∀ c ∈ l, markedClosed c = true) →
          (btv = true → ∀ c ∈ l, isMarked c = false) →
          countMarkedList (dbld_list tagname bt fp btv l) = countMarkedList l := by
        intro btv l
        induction l with
        | nil => intro _ _ _; rfl
        | cons c rest ihl =>
          intro hsz hcl hbm
          have hszr := fun d hd => hsz d (List.mem_cons_of_mem c hd)
          have hclr := fun d hd => hcl d (List.mem_cons_of_mem c hd)
          have hbmr := fun hb d hd => hbm hb d (List.mem_cons_of_mem c hd)
          show countMarkedList
            (if dbldDirect tagname fp c (!rest.isEmpty) || btv then
              dbld_list tagname bt fp btv rest
            else dbld_elem tagname bt fp c (!rest.isEmpty) ::
              dbld_list tagname bt fp btv rest)
            = countMarked c + countMarkedList rest
          by_cases hcond : (dbldDirect tagname fp c (!rest.isEmpty) || btv) = true
          · rw [if_pos hcond]
            have hcm : isMarked c = false := by
              rcases Bool.or_eq_true_iff.mp hcond with hd | hb
              · exact dbldDirect_unmarked hd
              · exact hbm hb c (List.mem_cons_self c rest)
            have hzero : countMarked c = 0 :=
              countMarked_eq_zero_of_unmarked c
                (hcl c (List.mem_cons_self c rest)) hcm
            rw [ihl hszr hclr hbmr, hzero]
            omega
          · rw [if_neg hcond]
            show countMarked (dbld_elem tagname bt fp c (!rest.isEmpty))
              + countMarkedList (dbld_list tagname bt fp btv rest)
              = countMarked c + countMarkedList rest
            rw [ih c (hsz c (List.mem_cons_self c rest)) (!rest.isEmpty)
              (hcl c (List.mem_cons_self c rest)),
              ihl hszr hclr hbmr]
      show (if (attribGet attrib "preserve-content").isSome then 1 else 0)
          + countMarkedList (dbld_list tagname bt fp
            (dbldBtParent tagname bt fp (.mk tag attrib text cs tail) hn) cs)
        = (if (attribGet attrib "preserve-content").isSome then 1 else 0)
          + countMarkedList cs
      rw [key _ cs (fun c h => sizeOf_lt_of_mem_children h) hparts.2
        (fun hb => dbldBtParent_children_unmarked hc hb)]

/-- The aside/footer content-check pass deletes no
`preserve-content`-marked element of an ancestor-closed tree: the
marked count is unchanged (unmarked instances and unmarked direct
children of preserved instances are the only deletions, and neither
subtree contains a marked element). -/
theorem checkContent_countMarked (t : String) :
    ∀ e : Elem, markedClosed e = true →
      countMarked (checkContentElem t e) = countMarked e := by
  intro e
  induction e using Elem.strongInduct with
  | h e ih =>
    cases e with
    | mk tag attrib text cs tail =>
      intro hc
      have hparts := markedClosed_parts hc
      have key2 : ∀ (l : List Elem) (st : Option String × List Elem),
          (∀ gc ∈ l, sizeOf gc < sizeOf (Elem.mk tag attrib text cs tail)) →
          (∀ gc ∈ l, markedClosed gc = true) →
          countMarkedList (dropUnmarkedProcList t st l).2
            = countMarkedList st.2 + countMarkedList l := by
        intro l
        induction l with
        | nil =>
          intro st _ _
          show countMarkedList st.2 = countMarkedList st.2 + 0
          omega
        | cons gc rest ihl =>
          intro st hsz hcl
          have hszr := fun d hd => hsz d (List.mem_cons_of_mem gc hd)
          have hclr := fun d hd => hcl d (List.mem_cons_of_mem gc hd)
          show countMarkedList
            (if isMarked gc then
              dropUnmarkedProcList t (st.1, checkContentElem t gc :: st.2) rest
            else dropUnmarkedProcList t (dropTreeTail st (Elem.tail gc)) rest).2
            = countMarkedList st.2 + (countMarked gc + countMarkedList rest)
          by_cases hm : isMarked gc = true
          · rw [if_pos hm, ihl _ hszr hclr]
            show countMarked (checkContentElem t gc) + countMarkedList st.2
              + countMarkedList rest = _
            rw [ih gc (hsz gc (List.mem_cons_self gc rest))
              (hcl gc (List.mem_cons_self gc rest))]
            omega
          · rw [if_neg hm, ihl _ hszr hclr, countMarkedList_dropTreeTail]
            have hzero : countMarked gc = 0 :=
              countMarked_eq_zero_of_unmarked gc
                (hcl gc (List.mem_cons_self gc rest)) (by simpa using hm)
            omega
      have key1 : ∀ (l : List Elem) (st : Option String × List Elem),
          (∀ c ∈ l, sizeOf c < sizeOf (Elem.mk tag attrib text cs tail)) →
          (∀ c ∈ l, markedClosed c = true) →
          countMarkedList (checkContentList t st l).2
            = countMarkedList st.2 + countMarkedList l := by
        intro l
        induction l with
        | nil =>
          intro st _ _
          show countMarkedList st.2 = countMarkedList st.2 + 0
          omega
        | cons c rest ihl =>
          intro st hsz hcl
          have hszr := fun d hd => hsz d (List.mem_cons_of_mem c hd)
          have hclr := fun d hd => hcl d (List.mem_cons_of_mem c hd)
          rcases c with ⟨ctag, cattrib, ctext, ccs, ctail⟩
          have hcmem := List.mem_cons_self
            (Elem.mk ctag cattrib ctext ccs ctail) rest
          simp only [checkContentList, Elem.tag, Elem.tail]
          by_cases htag : ctag = t
          · rw [if_pos htag]
            by_cases hm : isMarked (Elem.mk ctag cattrib ctext ccs ctail) = true
            · rw [if_pos hm]
              rw [ihl _ hszr hclr]
              have hgc : ∀ gc ∈ ccs,
                  sizeOf gc < sizeOf (Elem.mk tag attrib text cs tail) := by
                intro gc hgcm
                exact Nat.lt_trans (sizeOf_lt_of_mem_children hgcm)
                  (hsz _ hcmem)
              have hgcl : ∀ gc ∈ ccs, markedClosed gc = true :=
                (markedClosed_parts (hcl _ hcmem)).2
              have hmm : (attribGet cattrib "preserve-content").isSome = true := hm
              show ((if (attribGet cattrib "preserve-content").isSome then 1 else 0)
                  + countMarkedList
                    (dropUnmarkedProcList t (ctext, []) ccs).2.reverse)
                  + countMarkedList st.2 + countMarkedList rest
                = countMarkedList st.2
                  + (((if (attribGet cattrib "preserve-content").isSome then 1 else 0)
                    + countMarkedList ccs) + countMarkedList rest)
              rw [countMarkedList_reverse, key2 ccs (ctext, []) hgc hgcl, hmm]
              have h0 : countMarkedList ([] : List Elem) = 0 := rfl
              rw [h0]
              omega
            · rw [if_neg hm]
              rw [ihl _ hszr hclr, countMarkedList_dropTreeTail]
              have hzero : countMarked (Elem.mk ctag cattrib ctext ccs ctail) = 0 :=
                countMarked_eq_zero_of_unmarked _ (hcl _ hcmem) (by simpa using hm)
              show countMarkedList st.2 + countMarkedList rest
                = countMarkedList st.2
                  + (countMarked (Elem.mk ctag cattrib ctext ccs ctail)
                    + countMarkedList rest)
              omega
          · rw [if_neg htag]
            rw [ihl _ hszr hclr]
            show countMarked (checkContentElem t (Elem.mk ctag cattrib ctext ccs ctail))
                + countMarkedList st.2 + countMarkedList rest
              = countMarkedList st.2
                + (countMarked (Elem.mk ctag cattrib ctext ccs ctail)
                  + countMarkedList rest)
            rw [ih _ (hsz _ hcmem) (hcl _ hcmem)]
            omega
      show (if (attribGet attrib "preserve-content").isSome then 1 else 0)
          + countMarkedList (checkContentList t (text, []) cs).2.reverse
        = (if (attribGet attrib "preserve-content").isSome then 1 else 0)
          + countMarkedList cs
      rw [countMarkedList_reverse,
        key1 cs (text, []) (fun c h => sizeOf_lt_of_mem_children h) hparts.2]
      have h0 : countMarkedList ([] : List Elem) = 0 := rfl
      rw [h0]
      omega

/-- C1 (amended): once the preserve marker has been applied (marking is
ancestor-closed, as `mark_preserve` guarantees), no rule of the
content-check deletion pass of `tree_cleaning` and no rule of
`delete_by_link_density` — for any candidate tag, backtracking or
precision setting — deletes a marked element: the marked count is
unchanged.  The generic cleaning-list pass, however, runs *before*
marking and deletes pattern-matching elements (see the
counterexample). -/
theorem c1_marked_preservation_amended (e : Elem)
    (h : markedClosed e = true) (tagname : String)
    (backtracking favor_precision : Bool) (t : String) :
    countMarked (delete_by_link_density e tagname backtracking favor_precision)
      = countMarked e
    ∧ countMarked (checkContentElem t e) = countMarked e :=
  ⟨dbld_elem_countMarked tagname backtracking favor_precision e false h,
   checkContent_countMarked t e h⟩

/-- Witness for C1 (amended): a marked `aside` inside a marked body
survives both passes. -/
theorem c1_witness :
    countMarked (delete_by_link_density
      (Elem.mk "body" [("preserve-content", "true")] none
        [Elem.mk "aside" [("preserve-content", "true")] (some "KEEP") [] none]
        none) "p" true false)
      = countMarked
        (Elem.mk "body" [("preserve-content", "true")] none
          [Elem.mk "aside" [("preserve-content", "true")] (some "KEEP") [] none]
          none)
    ∧ countMarked (checkContentElem "aside"
        (Elem.mk "body" [("preserve-content", "true")] none
          [Elem.mk "aside" [("preserve-content", "true")] (some "KEEP") [] none]
          none))
      = countMarked
        (Elem.mk "body" [("preserve-content", "true")] none
          [Elem.mk "aside" [("preserve-content", "true")] (some "KEEP") [] none]
          none) :=
  c1_marked_preservation_amended
    (Elem.mk "body" [("preserve-content", "true")] none
      [Elem.mk "aside" [("preserve-content", "true")] (some "KEEP") [] none]
      none)
    (by decide) "p" true false "aside"

/-! ## Tag converter (`htmlprocessing.convert_tags`, `convert_to_html`) -/

/-- `REND_TAG_MAPPING`, in source order. -/
def REND_TAG_MAPPING : List (String × String) :=
  [("em", "#i"), ("i", "#i"), ("b", "#b"), ("strong", "#b"), ("u", "#u"),
   ("kbd", "#t"), ("samp", "#t"), ("tt", "#t"), ("var", "#t"),
   ("sub", "#sub"), ("sup", "#sup")]

/-- `HTML_TAG_MAPPING = {v: k for k, v in REND_TAG_MAPPING.items()}`: a
dict comprehension, so a later pair overwrites an earlier one with the
same code (`#i → i`, `#b → strong`, `#t → var`, `#u → u`,
`#sub → sub`, `#sup → sup`). -/
def HTML_TAG_MAPPING : List (String × String) :=
  REND_TAG_MAPPING.foldl (fun m p => attribSet m p.2 p.1) []

mutual
/-- The links-disabled branch of `convert_tags`:
`tree.xpath('.//div//a|.//ul//a[|.//table//a]')` retagged to `ref`.  The
flags carry whether a `div`/`ul`/`table` ancestor strictly below the
tree root has been passed. -/
def retagAnchorsElem (tables : Bool) (underDiv underUl underTable : Bool) :
    Elem → Elem
  | .mk tag attrib text cs tail =>
    let newTag :=
      if tag = "a" ∧ (underDiv ∨ underUl ∨ (tables ∧ underTable)) then "ref"
      else tag
    .mk newTag attrib text
      (retagAnchorsList tables (underDiv ∨ tag = "div") (underUl ∨ tag = "ul")
        (underTable ∨ tag = "table") cs) tail
/-- Helper for `retagAnchorsElem` over a child list. -/
def retagAnchorsList (tables : Bool) (underDiv underUl underTable : Bool) :
    List Elem → List Elem
  | [] => []
  | c :: rest =>
    retagAnchorsElem tables underDiv underUl underTable c ::
      retagAnchorsList tables underDiv underUl underTable rest
end

/-- The links-disabled branch applied at the root: the root element
itself is not on the `.//` descendant axis, so it contributes no
ancestor flag. -/
def retagAnchors (tables : Bool) : Elem → Elem
  | .mk tag attrib text cs tail =>
    .mk tag attrib text (retagAnchorsList tables false false false cs) tail

mutual
/-- The links-enabled branch of `convert_tags`: every `a`/`ref` element
becomes `ref`; `href` (when truthy, i.e. present and non-empty) is
resolved against the base URL (external courlan `fix_relative_urls`)
into a `target` attribute, and all other attributes are dropped. -/
def retagLinksElem (base_url : Option String) (fixRel : String → String → String) :
    Elem → Elem
  | .mk tag attrib text cs tail =>
    if tag = "a" ∨ tag = "ref" then
      let newAttrib :=
        match attribGet attrib "href" with
        | some tv =>
          if tv ≠ "" then
            [("target", match base_url with
              | some b => fixRel b tv
              | none => tv)]
          else []
        | none => []
      .mk "ref" newAttrib text (retagLinksList base_url fixRel cs) tail
    else .mk tag attrib text (retagLinksList base_url fixRel cs) tail
/-- Helper for `retagLinksElem` over a child list. -/
def retagLinksList (base_url : Option String) (fixRel : String → String → String) :
    List Elem → List Elem
  | [] => []
  | c :: rest =>
    retagLinksElem base_url fixRel c :: retagLinksList base_url fixRel rest
end

mutual
/-- The formatting-enabled branch of `convert_tags`: every element with
a `REND_TAG_MAPPING` tag is replaced by `hi` with the code in `rend`
(other attributes cleared). -/
def formatElem : Elem → Elem
  | .mk tag attrib text cs tail =>
    match attribGet REND_TAG_MAPPING tag with
    | some rendcode => .mk "hi" [("rend", rendcode)] text (formatList cs) tail
    | none => .mk tag attrib text (formatList cs) tail
/-- Helper for `formatElem` over a child list. -/
def formatList : List Elem → List Elem
  | [] => []
  | c :: rest => formatElem c :: formatList rest
end

mutual
/-- `convert_lists`' inner loop over `elem.iter("dd", "dt", "li")`:
document order, `rend="{tag}-{i}"` for `dd`/`dt`, counter incremented
after each `dd`, tag set to `item`. -/
def convListElem (i : Nat) : Elem → Elem × Nat
  | .mk tag attrib text cs tail =>
    let trip : String × List (String × String) × Nat :=
      if tag = "dd" ∨ tag = "dt" then
        ("item", attribSet attrib "rend" (tag ++ "-" ++ toString i),
          if tag = "dd" then i + 1 else i)
      else if tag = "li" then ("item", attrib, i)
      else (tag, attrib, i)
    let inner := convListList trip.2.2 cs
    (.mk trip.1 trip.2.1 text inner.1 tail, inner.2)
/-- Helper for `convListElem` over a child list, threading the
counter. -/
def convListList (i : Nat) : List Elem → List Elem × Nat
  | [] => ([], i)
  | c :: rest =>
    let p := convListElem i c
    let q := convListList p.2 rest
    (p.1 :: q.1, q.2)
end

/-- `convert_lists(elem)`: record the original tag in `rend`, retag to
`list`, convert the `dd`/`dt`/`li` descendants. -/
def convert_lists : Elem → Elem
  | .mk tag attrib text cs tail =>
    .mk "list" (attribSet attrib "rend" tag) text (convListList 1 cs).1 tail

/-- A `span` with a `class` attribute starting with `hljs`
(the `starts-with(@class,'hljs')` selector). -/
def isHljsSpan (e : Elem) : Bool :=
  Elem.tag e == "span" &&
    (match attribGet e.attrib "class" with
     | some cl => ("hljs" : String).data.isPrefixOf cl.data
     | none => false)

mutual
/-- Is there an hljs span among these elements or their descendants? -/
def hasHljsList : List Elem → Bool
  | [] => false
  | c :: rest => isHljsSpan c || hasHljsSubtree c || hasHljsList rest
/-- Is there an hljs span strictly inside this element? -/
def hasHljsSubtree : Elem → Bool
  | .mk _ _ _ cs _ => hasHljsList cs
end

mutual
/-- Clear the attributes of every hljs span in the subtree
(`subelem.attrib.clear()`). -/
def clearHljsElem : Elem → Elem
  | .mk tag attrib text cs tail =>
    let a2 := if isHljsSpan (.mk tag attrib text cs tail) then [] else attrib
    .mk tag a2 text (clearHljsList cs) tail
/-- Helper for `clearHljsElem` over a child list. -/
def clearHljsList : List Elem → List Elem
  | [] => []
  | c :: rest => clearHljsElem c :: clearHljsList rest
end

/-- `convert_quotes(elem)`: `pre` with a single `span` child or with
hljs spans (whose attributes are then cleared) becomes `code`, any
other quote-like element becomes `quote`. -/
def convert_quotes : Elem → Elem
  | .mk tag attrib text cs tail =>
    if tag = "pre" then
      let singleSpan : Bool :=
        match cs with
        | [c] => Elem.tag c == "span"
        | _ => false
      let hasCode := hasHljsList cs
      .mk (if singleSpan || hasCode then "code" else "quote") attrib text
        (if hasCode then clearHljsList cs else cs) tail
    else .mk "quote" attrib text cs tail

/-- `convert_headings(elem)`: clear attributes, record the tag in
`rend`, retag to `head`. -/
def convert_headings : Elem → Elem
  | .mk tag _ text cs tail => .mk "head" [("rend", tag)] text cs tail

/-- `convert_line_breaks(elem)`: `br`/`hr` become `lb`. -/
def convert_line_breaks : Elem → Elem
  | .mk _ attrib text cs tail => .mk "lb" attrib text cs tail

/-- `convert_deletions(elem)`: retag to `del` with
`rend="overstrike"`. -/
def convert_deletions : Elem → Elem
  | .mk _ attrib text cs tail =>
    .mk "del" (attribSet attrib "rend" "overstrike") text cs tail

mutual
/-- `summary` descendants become `head` (`convert_details`). -/
def summaryToHeadElem : Elem → Elem
  | .mk tag attrib text cs tail =>
    .mk (if tag = "summary" then "head" else tag) attrib text
      (summaryToHeadList cs) tail
/-- Helper for `summaryToHeadElem` over a child list. -/
def summaryToHeadList : List Elem → List Elem
  | [] => []
  | c :: rest => summaryToHeadElem c :: summaryToHeadList rest
end

/-- `convert_details(elem)`: retag to `div`, nested summaries to
`head`. -/
def convert_details : Elem → Elem
  | .mk _ attrib text cs tail => .mk "div" attrib text (summaryToHeadList cs) tail

/-- The keys of the `CONVERSIONS` dispatch table. -/
def conversionKeys : List String :=
  ["dl", "ol", "ul", "h1", "h2", "h3", "h4", "h5", "h6", "br", "hr",
   "blockquote", "pre", "q", "del", "s", "strike", "details"]

/-- One `CONVERSIONS[elem.tag](elem)` dispatch. -/
def convOne (e : Elem) : Elem :=
  if Elem.tag e = "dl" ∨ Elem.tag e = "ol" ∨ Elem.tag e = "ul" then
    convert_lists e
  else if Elem.tag e ∈ ["h1", "h2", "h3", "h4", "h5", "h6"] then
    convert_headings e
  else if Elem.tag e = "br" ∨ Elem.tag e = "hr" then convert_line_breaks e
  else if Elem.tag e = "blockquote" ∨ Elem.tag e = "pre" ∨ Elem.tag e = "q" then
    convert_quotes e
  else if Elem.tag e = "del" ∨ Elem.tag e = "s" ∨ Elem.tag e = "strike" then
    convert_deletions e
  else if Elem.tag e = "details" then convert_details e
  else e

mutual
/-- Depth of the tree (one node counts one). -/
def depthElem : Elem → Nat
  | .mk _ _ _ cs _ => 1 + depthList cs
/-- Depth over a child list. -/
def depthList : List Elem → Nat
  | [] => 0
  | c :: rest => max (depthElem c) (depthList rest)
end

/-- The `for elem in tree.iter(CONVERSIONS.keys())` loop: apply the
matching conversion at each element in document order, then continue
into the (converted) children — exactly the lazy-iterator behaviour,
since no conversion creates a key tag and each conversion only changes
tags and attributes (never the tree shape).  The fuel (initially the
tree depth, which the conversions preserve) only makes the recursion
into the converted children structural; the `fuel = 0` branch is
unreachable. -/
def applyConvFuel : Nat → Elem → Elem
  | 0, e => e
  | fuel + 1, e =>
    match convOne e with
    | .mk tag attrib text cs tail =>
      .mk tag attrib text (cs.map (applyConvFuel fuel)) tail

/-- The full `CONVERSIONS` pass. -/
def applyConversions (tree : Elem) : Elem :=
  applyConvFuel (depthElem tree) tree

mutual
/-- The images pass: `img` becomes `graphic` (attributes kept). -/
def imgToGraphicElem : Elem → Elem
  | .mk tag attrib text cs tail =>
    .mk (if tag = "img" then "graphic" else tag) attrib text
      (imgToGraphicList cs) tail
/-- Helper for `imgToGraphicElem` over a child list. -/
def imgToGraphicList : List Elem → List Elem
  | [] => []
  | c :: rest => imgToGraphicElem c :: imgToGraphicList rest
end

mutual
/-- `reorder_header_elements(tree)`: every `ref` with a direct `head`
child (`//ref[head]`, the root excluded as it has no parent to replace
it in) is replaced by a new `head` (the old head's tag and attributes)
wrapping a new `ref` (the old ref's tag and attributes) whose text is
the old head's text; all other contents, the old ref's text and its
tail are dropped (`Element()` creates bare elements and
`parent.replace` discards the old node with its tail). -/
def reorderHeadersElem : Elem → Elem
  | .mk tag attrib text cs tail => .mk tag attrib text (reorderHeadersList cs) tail
/-- Helper for `reorderHeadersElem` over a child list. -/
def reorderHeadersList : List Elem → List Elem
  | [] => []
  | c :: rest =>
    (match c with
     | .mk ctag cattrib ctext ccs ctail =>
       if ctag = "ref" then
         match ccs.find? (fun h => Elem.tag h == "head") with
         | some h =>
           Elem.mk (Elem.tag h) (Elem.attrib h) none
             [Elem.mk ctag cattrib (Elem.text h) [] none] none
         | none =>
           reorderHeadersElem (Elem.mk ctag cattrib ctext ccs ctail)
       else reorderHeadersElem (Elem.mk ctag cattrib ctext ccs ctail)) ::
      reorderHeadersList rest
end

/-- `convert_tags(tree, options, url)`.  `getBase` and `fixRel` are the
external courlan collaborators (`get_base_url`, `fix_relative_urls`). -/
def convert_tags (getBase : String → String) (fixRel : String → String → String)
    (tree : Elem) (options : ExtractorOptions) (url : Option String) : Elem :=
  let tree :=
    if ¬ options.links then
      stripTagsElem ["a"] (retagAnchors options.tables tree)
    else
      retagLinksElem (url.map getBase) fixRel tree
  let tree :=
    if options.formatting then formatElem tree
    else stripTagsElem (REND_TAG_MAPPING.map Prod.fst) tree
  let tree := applyConversions tree
  let tree := if options.images then imgToGraphicElem tree else tree
  reorderHeadersElem tree

/-! ## Reverse converter (`convert_to_html`) -/

/-- A Python exception raised by `convert_to_html`. -/
inductive PyError : Type where
  | typeError
  | keyError
  | valueError
deriving DecidableEq

/-- The keys of `HTML_CONVERSIONS`.  Note `img` (not `graphic`): the
reverse table maps canonical `img` to `graphic`, inverted relative to
every other entry, so `graphic` elements are left untouched by the
reverse pass. -/
def htmlConversionKeys : List String :=
  ["list", "item", "code", "quote", "head", "lb", "img", "ref", "hi"]

/-- The plain (non-callable) entries of `HTML_CONVERSIONS`. -/
def htmlConversionsPlain : List (String × String) :=
  [("list", "ul"), ("item", "li"), ("code", "pre"), ("quote", "blockquote"),
   ("lb", "br"), ("img", "graphic"), ("ref", "a")]

/-- Digit run to number (`none` when empty or non-digit). -/
def digitsToNat? : List Char → Option Nat
  | [] => none
  | l => go l 0
where
  /-- Accumulating helper. -/
  go : List Char → Nat → Option Nat
  | [], acc => some acc
  | c :: rest, acc =>
    if c.isDigit then go rest (acc * 10 + (c.toNat - 48)) else none

/-- Python `int(s)` on the strings in scope (optional sign and a digit
run; `ValueError` is `none`). -/
def pyInt? (s : String) : Option Int :=
  match s.data with
  | '-' :: rest => (digitsToNat? rest).map (fun n => -(n : Int))
  | '+' :: rest => (digitsToNat? rest).map (fun n => (n : Int))
  | l => (digitsToNat? l).map (fun n => (n : Int))

/-- The callable entry for `head`:
`lambda elem: f"h{int(elem.get('rend')[1:])}"` — a missing `rend` is
`None[1:]` (`TypeError`), a non-numeric remainder raises
`ValueError`. -/
def headTagOf (attrib : List (String × String)) : Except PyError String :=
  match attribGet attrib "rend" with
  | none => .error .typeError
  | some r =>
    match pyInt? (String.mk (r.data.drop 1)) with
    | none => .error .valueError
    | some n => .ok ("h" ++ toString n)

/-- The callable entry for `hi`:
`HTML_TAG_MAPPING[elem.get('rend')]` — a missing or unknown `rend` is a
`KeyError`. -/
def hiTagOf (attrib : List (String × String)) : Except PyError String :=
  match attribGet attrib "rend" with
  | none => .error .keyError
  | some r =>
    match attribGet HTML_TAG_MAPPING r with
    | some t => .ok t
    | none => .error .keyError

mutual
/-- The `tree.iter(HTML_CONVERSIONS.keys())` loop of `convert_to_html`
in document order with exception short-circuiting: converted elements
get their attributes cleared, except the new `a` elements, which get
`href` from `target` — `elem.set("href", elem.get("target"))` raises
`TypeError` when `target` is absent. -/
def convertHtmlElem : Elem → Except PyError Elem
  | .mk tag attrib text cs tail =>
    if tag ∈ htmlConversionKeys then
      match (if tag = "head" then headTagOf attrib
             else if tag = "hi" then hiTagOf attrib
             else
               match attribGet htmlConversionsPlain tag with
               | some t => Except.ok t
               | none => Except.ok tag) with
      | .error err => .error err
      | .ok newTag =>
        match (if newTag = "a" then
                 match attribGet attrib "target" with
                 | none => Except.error PyError.typeError
                 | some v =>
                   Except.ok (attribRemove (attribSet attrib "href" v) "target")
               else Except.ok ([] : List (String × String))) with
        | .error err => .error err
        | .ok newAttrib =>
          match convertHtmlList cs with
          | .error err => .error err
          | .ok cs2 => .ok (.mk newTag newAttrib text cs2 tail)
    else
      match convertHtmlList cs with
      | .error err => .error err
      | .ok cs2 => .ok (.mk tag attrib text cs2 tail)
/-- Helper for `convertHtmlElem` over a child list. -/
def convertHtmlList : List Elem → Except PyError (List Elem)
  | [] => .ok []
  | c :: rest =>
    match convertHtmlElem c with
    | .error err => .error err
    | .ok c2 =>
      match convertHtmlList rest with
      | .error err => .error err
      | .ok rest2 => .ok (c2 :: rest2)
end

/-- `tree.tag = "body"` after the conversion loop. -/
def setTagBody : Elem → Elem
  | .mk _ attrib text cs tail => .mk "body" attrib text cs tail

/-- `convert_to_html(tree)`: run the conversion loop, retag the root to
`body` and wrap it under a fresh `html` root. -/
def convert_to_html (tree : Elem) : Except PyError Elem :=
  match convertHtmlElem tree with
  | .error err => .error err
  | .ok t => .ok (.mk "html" [] none [setTagBody t] none)

/-! ## Claim C3 -/

/-- The all-features configuration used by the round-trip claims. -/
def rtOptions : ExtractorOptions :=
  { tables := true, images := true, links := true, formatting := true,
    preserve := [], focus := "" }

/-- Round-trip observable: the tag of the single element after the
forward converter (`convert_tags`, all features on, no URL) followed by
the reverse converter (`convert_to_html`), on the document
`<body><tag>x</tag></body>`. -/
def roundTripChildTag (tag : String) : Option String :=
  match convert_to_html (convert_tags (fun _ => "") (fun _ t => t)
      (Elem.mk "body" [] none [Elem.mk tag [] (some "x") [] none] none)
      rtOptions none) with
  | .ok (.mk _ _ _ [b] _) => ((Elem.children b).head?).map Elem.tag
  | _ => none

/-- C3 counterexample: the reverse Tag Converter is not the exact
inverse of the forward one — `em` comes back as `i` (the reverse
`rend` lookup keeps only the last alias of each code), `img` comes back
as `graphic` (the reverse table has the `img → graphic` entry backwards,
so `graphic` is never mapped back), and `ol` comes back as `ul` (the
reverse `list` entry ignores `rend`). -/
theorem c3_counterexample :
    roundTripChildTag "em" = some "i"
    ∧ roundTripChildTag "img" = some "graphic"
    ∧ roundTripChildTag "ol" = some "ul"
    ∧ some ("i" : String) ≠ some "em" := by
  refine ⟨rfl, rfl, rfl, by decide⟩

/-- C3 (amended): the round trip restores the original tag name exactly
for the canonical-representative tags — one representative per
`rend`-code (`i`, `strong`, `u`, `var`, `sub`, `sup`), the headings,
`br`, `ul`, `blockquote`, `li`, `del`, and untouched tags such as `p`,
`div`, `span` — while alias tags are normalised to these
representatives and `graphic` stays unconverted. -/
theorem c3_roundtrip_representatives (tag : String)
    (h : tag ∈ ["i", "strong", "u", "var", "sub", "sup", "h1", "h2", "h3",
      "h4", "h5", "h6", "br", "ul", "blockquote", "p", "div", "li", "del",
      "span"]) :
    roundTripChildTag tag = some tag := by
  fin_cases h <;> rfl

/-- Witness for C3 (amended) at `i`. -/
theorem c3_witness : roundTripChildTag "i" = some "i" :=
  c3_roundtrip_representatives "i" (by decide)

/-! ## Claim C10 -/

/-- Success test for the reverse tag computations. -/
def exceptOk (x : Except PyError String) : Bool :=
  match x with
  | .ok _ => true
  | .error _ => false

mutual
/-- Canonical well-formedness of the `rend`-bearing tags: every `head`
has a `rend` whose remainder parses as an integer and every `hi` has a
`rend` known to `HTML_TAG_MAPPING` (the canonical schema guarantees
both). -/
def headsHiOK : Elem → Bool
  | .mk tag attrib _ cs _ =>
    (if tag = "head" then exceptOk (headTagOf attrib) else true)
      && (if tag = "hi" then exceptOk (hiTagOf attrib) else true)
      && headsHiOKList cs
/-- Helper for `headsHiOK` over a child list. -/
def headsHiOKList : List Elem → Bool
  | [] => true
  | c :: rest => headsHiOK c && headsHiOKList rest
end

mutual
/-- Does the subtree (element included) contain a `ref` with no
`target` attribute? -/
def existsRefNoTarget : Elem → Bool
  | .mk tag attrib _ cs _ =>
    (tag == "ref" && (attribGet attrib "target").isNone)
      || existsRefNoTargetList cs
/-- Helper for `existsRefNoTarget` over a child list. -/
def existsRefNoTargetList : List Elem → Bool
  | [] => false
  | c :: rest => existsRefNoTarget c || existsRefNoTargetList rest
end

/-- Unpacking `headsHiOK` at a constructor. -/
theorem headsHiOK_parts {tag attrib text tail} {cs : List Elem}
    (h : headsHiOK (.mk tag attrib text cs tail) = true) :
    (tag = "head" → exceptOk (headTagOf attrib) = true)
    ∧ (tag = "hi" → exceptOk (hiTagOf attrib) = true)
    ∧ ∀ c ∈ cs, headsHiOK c = true := by
  have h' : ((if tag = "head" then exceptOk (headTagOf attrib) else true)
      && (if tag = "hi" then exceptOk (hiTagOf attrib) else true)
      && headsHiOKList cs) = true := h
  rw [Bool.and_eq_true, Bool.and_eq_true] at h'
  refine ⟨fun hh => ?_, fun hh => ?_, ?_⟩
  · have := h'.1.1
    rwa [if_pos hh] at this
  · have := h'.1.2
    rwa [if_pos hh] at this
  · have := h'.2
    clear h h'
    induction cs with
    | nil => intro c hc; exact absurd hc (by simp)
    | cons c rest ih =>
      rw [show headsHiOKList (c :: rest)
          = (headsHiOK c && headsHiOKList rest) from rfl,
        Bool.and_eq_true] at this
      intro d hd
      rcases List.mem_cons.mp hd with rfl | hd2
      · exact this.1
      · exact ih this.2 d hd2

/-- On a tree whose `head`/`hi` elements are canonically well-formed,
the reverse conversion either succeeds or raises exactly `TypeError`
(the `ref`-without-`target` failure) — never `KeyError` or
`ValueError`. -/
theorem convertHtml_ok_or_typeError :
    ∀ e : Elem, headsHiOK e = true →
      (∃ r, convertHtmlElem e = .ok r)
      ∨ convertHtmlElem e = .error .typeError := by
  intro e
  induction e using Elem.strongInduct with
  | h e ih =>
    cases e with
    | mk tag attrib text cs tail =>
      intro hok
      have hparts := headsHiOK_parts hok
      have key : ∀ l : List Elem,
          (∀ c ∈ l, sizeOf c < sizeOf (Elem.mk tag attrib text cs tail)) →
          (∀ c ∈ l, headsHiOK c = true) →
          (∃ rs, convertHtmlList l = Except.ok rs)
          ∨ convertHtmlList l = Except.error PyError.typeError := by
        intro l
        induction l with
        | nil => exact fun _ _ => Or.inl ⟨[], rfl⟩
        | cons c rest ihl =>
          intro hsz hcok
          have hszr := fun d hd => hsz d (List.mem_cons_of_mem c hd)
          have hcokr := fun d hd => hcok d (List.mem_cons_of_mem c hd)
          have hstep : convertHtmlList (c :: rest) =
              (match convertHtmlElem c with
               | .error err => Except.error err
               | .ok c2 =>
                 match convertHtmlList rest with
                 | .error err => Except.error err
                 | .ok rest2 => Except.ok (c2 :: rest2)) := rfl
          rcases ih c (hsz c (List.mem_cons_self c rest))
              (hcok c (List.mem_cons_self c rest)) with ⟨r, hr⟩ | herr
          · rcases ihl hszr hcokr with ⟨rs, hrs⟩ | herrs
            · refine Or.inl ⟨r :: rs, ?_⟩
              rw [hstep, hr, hrs]
            · refine Or.inr ?_
              rw [hstep, hr, herrs]
          · refine Or.inr ?_
            rw [hstep, herr]
      have hlist := key cs (fun c hc => sizeOf_lt_of_mem_children hc) hparts.2.2
      by_cases hkey : tag ∈ htmlConversionKeys
      · have hnew : ∃ nt, (if tag = "head" then headTagOf attrib
            else if tag = "hi" then hiTagOf attrib
            else
              match attribGet htmlConversionsPlain tag with
              | some t => Except.ok t
              | none => Except.ok tag) = .ok nt := by
          by_cases hh : tag = "head"
          · rw [if_pos hh]
            have := hparts.1 hh
            cases hx : headTagOf attrib with
            | ok nt => exact ⟨nt, rfl⟩
            | error err => rw [hx] at this; exact absurd this (by simp [exceptOk])
          · rw [if_neg hh]
            by_cases hh2 : tag = "hi"
            · rw [if_pos hh2]
              have := hparts.2.1 hh2
              cases hx : hiTagOf attrib with
              | ok nt => exact ⟨nt, rfl⟩
              | error err => rw [hx] at this; exact absurd this (by simp [exceptOk])
            · rw [if_neg hh2]
              cases hx : attribGet htmlConversionsPlain tag with
              | some t => exact ⟨t, rfl⟩
              | none => exact ⟨tag, rfl⟩
        rcases hnew with ⟨nt, hnt⟩
        have hstepE : convertHtmlElem (Elem.mk tag attrib text cs tail) =
            (if tag ∈ htmlConversionKeys then
              match (if tag = "head" then headTagOf attrib
                     else if tag = "hi" then hiTagOf attrib
                     else
                       match attribGet htmlConversionsPlain tag with
                       | some t => Except.ok t
                       | none => Except.ok tag) with
              | .error err => Except.error err
              | .ok newTag =>
                match (if newTag = "a" then
                         match attribGet attrib "target" with
                         | none => Except.error PyError.typeError
                         | some v =>
                           Except.ok (attribRemove (attribSet attrib "href" v) "target")
                       else Except.ok ([] : List (String × String))) with
                | .error err => Except.error err
                | .ok newAttrib =>
                  match convertHtmlList cs with
                  | .error err => Except.error err
                  | .ok cs2 => Except.ok (Elem.mk newTag newAttrib text cs2 tail)
            else
              match convertHtmlList cs with
              | .error err => Except.error err
              | .ok cs2 => Except.ok (Elem.mk tag attrib text cs2 tail)) := rfl
        rw [hstepE, if_pos hkey]
        simp only [hnt]
        by_cases ha : nt = "a"
        · rw [if_pos ha]
          cases ht : attribGet attrib "target" with
          | none =>
            simp only [ht]
            exact Or.inr trivial
          | some v =>
            simp only [ht]
            rcases hlist with ⟨rs, hrs⟩ | herrs
            · exact Or.inl
                ⟨Elem.mk nt (attribRemove (attribSet attrib "href" v) "target")
                  text rs tail, by rw [hrs]⟩
            · exact Or.inr (by rw [herrs])
        · rw [if_neg ha]
          rcases hlist with ⟨rs, hrs⟩ | herrs
          · exact Or.inl ⟨Elem.mk nt [] text rs tail, by rw [hrs]⟩
          · exact Or.inr (by rw [herrs])
      · have hstepE : convertHtmlElem (Elem.mk tag attrib text cs tail) =
            (if tag ∈ htmlConversionKeys then
              match (if tag = "head" then headTagOf attrib
                     else if tag = "hi" then hiTagOf attrib
                     else
                       match attribGet htmlConversionsPlain tag with
                       | some t => Except.ok t
                       | none => Except.ok tag) with
              | .error err => Except.error err
              | .ok newTag =>
                match (if newTag = "a" then
                         match attribGet attrib "target" with
                         | none => Except.error PyError.typeError
                         | some v =>
                           Except.ok (attribRemove (attribSet attrib "href" v) "target")
                       else Except.ok ([] : List (String × String))) with
                | .error err => Except.error err
                | .ok newAttrib =>
                  match convertHtmlList cs with
                  | .error err => Except.error err
                  | .ok cs2 => Except.ok (Elem.mk newTag newAttrib text cs2 tail)
            else
              match convertHtmlList cs with
              | .error err => Except.error err
              | .ok cs2 => Except.ok (Elem.mk tag attrib text cs2 tail)) := rfl
        rw [hstepE, if_neg hkey]
        rcases hlist with ⟨rs, hrs⟩ | herrs
        · exact Or.inl ⟨Elem.mk tag attrib text rs tail, by rw [hrs]⟩
        · exact Or.inr (by rw [herrs])
/-- A successful reverse conversion implies that every `ref` in the
input carried a `target` attribute (the `a` branch would have raised
`TypeError` otherwise). -/
theorem convertHtml_ok_no_missing_ref :
    ∀ e : Elem, ∀ r, convertHtmlElem e = .ok r →
      existsRefNoTarget e = false := by
  intro e
  induction e using Elem.strongInduct with
  | h e ih =>
    cases e with
    | mk tag attrib text cs tail =>
      intro r hr
      have hstepE : convertHtmlElem (Elem.mk tag attrib text cs tail) =
          (if tag ∈ htmlConversionKeys then
            match (if tag = "head" then headTagOf attrib
                   else if tag = "hi" then hiTagOf attrib
                   else
                     match attribGet htmlConversionsPlain tag with
                     | some t => Except.ok t
                     | none => Except.ok tag) with
            | .error err => Except.error err
            | .ok newTag =>
              match (if newTag = "a" then
                       match attribGet attrib "target" with
                       | none => Except.error PyError.typeError
                       | some v =>
                         Except.ok (attribRemove (attribSet attrib "href" v) "target")
                     else Except.ok ([] : List (String × String))) with
              | .error err => Except.error err
              | .ok newAttrib =>
                match convertHtmlList cs with
                | .error err => Except.error err
                | .ok cs2 => Except.ok (Elem.mk newTag newAttrib text cs2 tail)
          else
            match convertHtmlList cs with
            | .error err => Except.error err
            | .ok cs2 => Except.ok (Elem.mk tag attrib text cs2 tail)) := rfl
      have keyB : ∀ l : List Elem,
          (∀ c ∈ l, sizeOf c < sizeOf (Elem.mk tag attrib text cs tail)) →
          ∀ rs, convertHtmlList l = .ok rs →
          existsRefNoTargetList l = false := by
        intro l
        induction l with
        | nil => intro _ rs _; rfl
        | cons c rest ihl =>
          intro hsz rs hrs
          have hstep : convertHtmlList (c :: rest) =
              (match convertHtmlElem c with
               | .error err => Except.error err
               | .ok c2 =>
                 match convertHtmlList rest with
                 | .error err => Except.error err
                 | .ok rest2 => Except.ok (c2 :: rest2)) := rfl
          rw [hstep] at hrs
          cases h1 : convertHtmlElem c with
          | error err =>
            simp only [h1] at hrs
            exact Except.noConfusion hrs
          | ok c2 =>
            simp only [h1] at hrs
            cases h2 : convertHtmlList rest with
            | error err =>
              simp only [h2] at hrs
              exact Except.noConfusion hrs
            | ok rest2 =>
              have hself := ih c (hsz c (List.mem_cons_self c rest)) c2 h1
              have hrest := ihl (fun d hd => hsz d (List.mem_cons_of_mem c hd))
                rest2 h2
              show (existsRefNoTarget c || existsRefNoTargetList rest) = false
              rw [hself, hrest]
              rfl
      rw [hstepE] at hr
      show ((tag == "ref" && (attribGet attrib "target").isNone)
        || existsRefNoTargetList cs) = false
      by_cases hkey : tag ∈ htmlConversionKeys
      · rw [if_pos hkey] at hr
        cases h1 : (if tag = "head" then headTagOf attrib
            else if tag = "hi" then hiTagOf attrib
            else
              match attribGet htmlConversionsPlain tag with
              | some t => Except.ok t
              | none => Except.ok tag) with
        | error err =>
          simp only [h1] at hr
          exact Except.noConfusion hr
        | ok nt =>
          simp only [h1] at hr
          cases h2 : (if nt = "a" then
              match attribGet attrib "target" with
              | none => Except.error PyError.typeError
              | some v =>
                Except.ok (attribRemove (attribSet attrib "href" v) "target")
            else Except.ok ([] : List (String × String))) with
          | error err =>
            simp only [h2] at hr
            exact Except.noConfusion hr
          | ok na =>
            simp only [h2] at hr
            cases h3 : convertHtmlList cs with
            | error err =>
              simp only [h3] at hr
              exact Except.noConfusion hr
            | ok cs2 =>
              have hrest := keyB cs (fun c hc => sizeOf_lt_of_mem_children hc)
                cs2 h3
              rw [hrest]
              by_cases href : tag = "ref"
              · subst href
                have h1' : Except.ok "a" = Except.ok nt := h1
                have hnta : nt = "a" := (Except.ok.inj h1').symm
                subst hnta
                rw [if_pos rfl] at h2
                cases ht : attribGet attrib "target" with
                | none => rw [ht] at h2; exact absurd h2 (by simp)
                | some v => simp [ht]
              · have : (tag == "ref") = false := by
                  simp [href]
                rw [this]
                rfl
      · rw [if_neg hkey] at hr
        cases h3 : convertHtmlList cs with
        | error err =>
          simp only [h3] at hr
          exact Except.noConfusion hr
        | ok cs2 =>
          have hrest := keyB cs (fun c hc => sizeOf_lt_of_mem_children hc) cs2 h3
          rw [hrest]
          have href : tag ≠ "ref" := by
            intro hrf
            rw [hrf] at hkey
            exact hkey (by decide)
          have : (tag == "ref") = false := by simp [href]
          rw [this]
          rfl

/-- C10: on a canonically well-formed tree (every `head` and `hi`
carries a valid `rend`), `convert_to_html` raises `TypeError` whenever
some `ref` element lacks a `target` attribute (the `a` branch sets
`href` from the missing attribute's `None`); and conversely the reverse
conversion succeeds only on trees in which every `ref` carries a
`target`. -/
theorem c10_ref_without_target_typeerror (t : Elem)
    (h1 : headsHiOK t = true) :
    (existsRefNoTarget t = true → convert_to_html t = .error .typeError)
    ∧ (∀ r, convert_to_html t = .ok r → existsRefNoTarget t = false) := by
  constructor
  · intro hex
    rcases convertHtml_ok_or_typeError t h1 with ⟨r, hr⟩ | herr
    · have := convertHtml_ok_no_missing_ref t r hr
      rw [this] at hex
      exact absurd hex (by simp)
    · show (match convertHtmlElem t with
        | .error err => Except.error err
        | .ok t2 => Except.ok (Elem.mk "html" [] none [setTagBody t2] none))
        = Except.error PyError.typeError
      rw [herr]
  · intro r hr
    have hstep : convert_to_html t =
        (match convertHtmlElem t with
         | .error err => Except.error err
         | .ok t2 => Except.ok (Elem.mk "html" [] none [setTagBody t2] none)) := rfl
    rw [hstep] at hr
    cases hh : convertHtmlElem t with
    | error err =>
      simp only [hh] at hr
      exact Except.noConfusion hr
    | ok t2 => exact convertHtml_ok_no_missing_ref t t2 hh

/-- Witness for C10: a body containing one `ref` without `target`. -/
theorem c10_witness :
    convert_to_html
      (Elem.mk "body" [] none [Elem.mk "ref" [] (some "x") [] none] none)
      = .error .typeError :=
  (c10_ref_without_target_typeerror
    (Elem.mk "body" [] none [Elem.mk "ref" [] (some "x") [] none] none)
    (by decide)).1 (by decide)

end Trafilatura
